import Mathlib

/-!
Verification development for the `infl` repository.

Part 1 embeds the frontend `HomePage` component's `handleSearch` handler
(`src/frontend/app/page.tsx`).  Part 2 models the data-ingestion pipeline
described in the repository's specification (the pipeline code itself is not
part of the checked-in sources; its stages, data model, caching, retry and
upsert behaviour are modelled from the specification text).
-/

namespace Infl

/-! ### Frontend: HomePage.handleSearch (src/frontend/app/page.tsx) -/

/-- The set of characters removed by JavaScript's `String.prototype.trim`:
ECMAScript WhiteSpace plus LineTerminator code points. -/
def jsWhitespaceChar (c : Char) : Bool :=
  c.val = 9 || c.val = 10 || c.val = 11 || c.val = 12 || c.val = 13 || c.val = 32 ||
  c.val = 0xa0 || c.val = 0x1680 || (0x2000 ≤ c.val && c.val ≤ 0x200a) ||
  c.val = 0x2028 || c.val = 0x2029 || c.val = 0x202f || c.val = 0x205f ||
  c.val = 0x3000 || c.val = 0xfeff

/-- JavaScript `String.prototype.trim`: drop leading and trailing whitespace. -/
def jsTrim (s : String) : String :=
  ⟨((s.data.dropWhile jsWhitespaceChar).reverse.dropWhile jsWhitespaceChar).reverse⟩

/-- Outcome of the `fetch` to `POST /ask` as observed by `handleSearch`:
a successful response body `{answer, products}` (where `data.products` may be
absent, modelled by `Option`), a non-ok HTTP status (`res.ok` false), or a
rejected fetch (network failure). -/
inductive AskResponse (P : Type) where
  | ok (answer : String) (products : Option (List P))
  | notOk (status : Nat)
  | reject
deriving DecidableEq

/-- Outcome of the `fetch` to `GET /search` (non-AI branch): `{results}`
(possibly absent), a non-ok status, or a rejected fetch. -/
inductive SearchResponse (P : Type) where
  | ok (results : Option (List P))
  | notOk (status : Nat)
  | reject
deriving DecidableEq

/-- The backend as seen from one `handleSearch` invocation: the response the
single issued request would receive on each endpoint. -/
structure Backend (P : Type) where
  ask : AskResponse P
  search : SearchResponse P
deriving DecidableEq

/-- The `useState` cells of `HomePage`. -/
structure HomeState (P : Type) where
  query : String
  products : List P
  loading : Bool
  searched : Bool
  error : String
  aiMode : Bool
  aiAnswer : String
deriving DecidableEq

/-- The error message set by the `catch` block of `handleSearch`. -/
def fetchFailedMsg : String := "Failed to fetch results. Is the backend running?"

/-- `handleSearch` from `src/frontend/app/page.tsx` (AI-mode HomePage),
returning the component state after the handler completes together with the
number of network requests issued (0 or 1).  The early return fires when
`searchQuery.trim()` is falsy, i.e. empty; otherwise the handler sets
query/loading/error/searched/aiAnswer, issues one fetch on the branch chosen
by `aiMode`, applies the success updates or the shared `catch` updates, and
finally clears `loading`. -/
def handleSearch {P : Type} (backend : Backend P) (searchQuery : String)
    (s : HomeState P) : HomeState P × Nat :=
  if jsTrim searchQuery = "" then (s, 0)
  else
    let s1 := { s with query := searchQuery, loading := true, error := "",
                       searched := true, aiAnswer := "" }
    let s2 :=
      if s1.aiMode then
        match backend.ask with
        | .ok answer prods => { s1 with aiAnswer := answer, products := prods.getD [] }
        | .notOk _ => { s1 with error := fetchFailedMsg, products := [] }
        | .reject => { s1 with error := fetchFailedMsg, products := [] }
      else
        match backend.search with
        | .ok results => { s1 with products := results.getD [] }
        | .notOk _ => { s1 with error := fetchFailedMsg, products := [] }
        | .reject => { s1 with error := fetchFailedMsg, products := [] }
    ({ s2 with loading := false }, 1)

end Infl

namespace Infl

/-- C9: for every input string whose `trim()` is empty, the AI-mode HomePage
`handleSearch` returns immediately, issuing no network request and leaving all
component state (query, products, loading, searched, error, aiMode, aiAnswer)
unchanged. -/
theorem handleSearch_blank_noop {P : Type} (backend : Backend P)
    (searchQuery : String) (s : HomeState P) (h : jsTrim searchQuery = "") :
    handleSearch backend searchQuery s = (s, 0) := by
  simp [handleSearch, h]

/-- Witness for C9 at a concrete whitespace-only query. -/
theorem handleSearch_blank_noop_witness :
    jsTrim "  \t " = "" ∧
      handleSearch ⟨AskResponse.reject, SearchResponse.reject⟩ "  \t "
        ⟨"q", [1, 2], true, true, "e", true, "a"⟩ =
        (⟨"q", ([1, 2] : List Nat), true, true, "e", true, "a"⟩, 0) :=
  ⟨by decide,
   handleSearch_blank_noop ⟨AskResponse.reject, SearchResponse.reject⟩ "  \t "
     ⟨"q", [1, 2], true, true, "e", true, "a"⟩ (by decide)⟩

/-- C10: in the AI-mode HomePage `handleSearch`, for every non-blank query,
if the backend request fails (the fetch rejects or the response status is not
ok), then when the handler completes the error state is the fixed failure
message, the products state is empty, loading is false — and exactly one
request was issued. -/
theorem handleSearch_failure_state {P : Type} (backend : Backend P)
    (searchQuery : String) (s : HomeState P)
    (hq : ¬ jsTrim searchQuery = "") (hai : s.aiMode = true)
    (hfail : backend.ask = .reject ∨ ∃ st, backend.ask = .notOk st) :
    (handleSearch backend searchQuery s).1.error = fetchFailedMsg ∧
      (handleSearch backend searchQuery s).1.products = [] ∧
      (handleSearch backend searchQuery s).1.loading = false ∧
      (handleSearch backend searchQuery s).2 = 1 := by
  rcases hfail with hfail | ⟨st, hfail⟩ <;>
    simp [handleSearch, hq, hai, hfail]

/-- Witness for C10 at a concrete query and a rejecting backend. -/
theorem handleSearch_failure_state_witness :
    (handleSearch ⟨AskResponse.reject, SearchResponse.ok none⟩ "mascara"
        ⟨"", ([] : List Nat), false, false, "", true, ""⟩).1.error = fetchFailedMsg ∧
      (handleSearch ⟨AskResponse.reject, SearchResponse.ok none⟩ "mascara"
        ⟨"", ([] : List Nat), false, false, "", true, ""⟩).1.products = [] ∧
      (handleSearch ⟨AskResponse.reject, SearchResponse.ok none⟩ "mascara"
        ⟨"", ([] : List Nat), false, false, "", true, ""⟩).1.loading = false ∧
      (handleSearch ⟨AskResponse.reject, SearchResponse.ok none⟩ "mascara"
        ⟨"", ([] : List Nat), false, false, "", true, ""⟩).2 = 1 :=
  handleSearch_failure_state ⟨AskResponse.reject, SearchResponse.ok none⟩ "mascara"
    ⟨"", ([] : List Nat), false, false, "", true, ""⟩ (by decide) rfl (Or.inl rfl)

end Infl

/-!
### Pipeline model

Modelled from the spec: the repository's checked-in sources contain only the
frontend; the ingestion pipeline (orchestrator, stage runners, content store,
retry policy, load/upsert logic) is described by the specification and the
backend README but its code is not under the sources.  Every definition below
is a faithful shallow embedding of the specification's description.
-/

deriving instance DecidableEq for Except

namespace Infl

/-- Association-list lookup by key (first match wins). -/
def alookup {α β : Type} [DecidableEq α] (k : α) : List (α × β) → Option β
  | [] => none
  | kv :: rest => if kv.1 = k then some kv.2 else alookup k rest

/-- Association-list update: replace the binding of `k` (or append one). -/
def setAssoc {α β : Type} [DecidableEq α] (k : α) (v : β) :
    List (α × β) → List (α × β)
  | [] => [(k, v)]
  | kv :: rest => if kv.1 = k then (k, v) :: rest else kv :: setAssoc k v rest

theorem alookup_cons {α β : Type} [DecidableEq α] (k : α) (kv : α × β)
    (rest : List (α × β)) :
    alookup k (kv :: rest) = if kv.1 = k then some kv.2 else alookup k rest := rfl

theorem setAssoc_eq_self {α β : Type} [DecidableEq α] (k : α) (v : β) :
    ∀ l : List (α × β), alookup k l = some v → setAssoc k v l = l := by
  intro l
  induction l with
  | nil => intro h; simp [alookup] at h
  | cons kv rest ih =>
    intro h
    by_cases hk : kv.1 = k
    · simp [alookup, hk] at h
      simp only [setAssoc, hk, if_true, if_pos]
      rw [← hk, ← h]
    · simp [alookup, hk] at h
      simp [setAssoc, hk, ih h]

/-- Modelled from the spec: failure modes of the external service adapters
(scraper, media fetch, speech-to-text, extraction model). -/
inductive AdapterError where
  | rateLimited
  | notFound
  | transientNetwork
  | gone
  | unsupported
  | serviceUnavailable
  | malformedOutput
deriving DecidableEq

/-- Modelled from the spec: the error taxonomy — network timeouts, rate limits
and service unavailability are transient; content gone (404/410), unsupported
format, influencer not found and malformed output are permanent. -/
def AdapterError.isTransient : AdapterError → Bool
  | .rateLimited => true
  | .transientNetwork => true
  | .serviceUnavailable => true
  | .notFound => false
  | .gone => false
  | .unsupported => false
  | .malformedOutput => false

/-- Modelled from the spec: shared retry/backoff bounds (max attempts, base
delay, max delay, jitter range).  At least one attempt is always made. -/
structure RetryPolicy where
  maxAttempts : Nat
  baseDelay : Nat
  maxDelay : Nat
  jitterBound : Nat
deriving DecidableEq

/-- Modelled from the spec: the delay slept after failed attempt `attempt` —
exponential (`baseDelay * 2 ^ attempt`) capped at `maxDelay`, plus a jitter
term bounded by `jitterBound`. -/
def backoffDelay (p : RetryPolicy) (attempt jitterVal : Nat) : Nat :=
  Nat.min (p.baseDelay * 2 ^ attempt) p.maxDelay + jitterVal % (p.jitterBound + 1)

/-- How a wrapped adapter call ultimately failed: a permanent error (never
retried) or transient errors exhausting the attempt budget (escalated). -/
inductive CallFail where
  | permanentFail (e : AdapterError)
  | exhausted (e : AdapterError)
deriving DecidableEq

/-- Result of a retry-wrapped adapter call: outcome, number of attempts made,
and the backoff delays slept between attempts. -/
structure RetryResult (α : Type) where
  outcome : Except CallFail α
  attempts : Nat
  delays : List Nat
deriving DecidableEq

/-- Modelled from the spec: the unified adapter-wrapping retry loop.  `i` is
the current (0-based) attempt index, `rem` the number of retries still allowed
after this attempt, `ds` the delays slept so far (reversed).  The external
world is an attempt-indexed oracle. -/
def retryGo {α : Type} (p : RetryPolicy) (oracle : Nat → Except AdapterError α)
    (jitter : Nat → Nat) : Nat → Nat → List Nat → RetryResult α
  | i, 0, ds =>
    match oracle i with
    | .ok a => ⟨.ok a, i + 1, ds.reverse⟩
    | .error e =>
      if e.isTransient then ⟨.error (.exhausted e), i + 1, ds.reverse⟩
      else ⟨.error (.permanentFail e), i + 1, ds.reverse⟩
  | i, rem + 1, ds =>
    match oracle i with
    | .ok a => ⟨.ok a, i + 1, ds.reverse⟩
    | .error e =>
      if e.isTransient then
        retryGo p oracle jitter (i + 1) rem (backoffDelay p i (jitter i) :: ds)
      else ⟨.error (.permanentFail e), i + 1, ds.reverse⟩

/-- Modelled from the spec: call an adapter with exponential backoff and
jitter, making at most `p.maxAttempts` attempts (at least one). -/
def callWithRetry {α : Type} (p : RetryPolicy)
    (oracle : Nat → Except AdapterError α) (jitter : Nat → Nat) : RetryResult α :=
  retryGo p oracle jitter 0 (p.maxAttempts - 1) []

theorem retryGo_ok {α : Type} (p : RetryPolicy) (oracle : Nat → Except AdapterError α)
    (jitter : Nat → Nat) (i rem : Nat) (ds : List Nat) (a : α)
    (h : oracle i = .ok a) :
    retryGo p oracle jitter i rem ds = ⟨.ok a, i + 1, ds.reverse⟩ := by
  cases rem <;> simp [retryGo, h]

theorem callWithRetry_ok {α : Type} (p : RetryPolicy)
    (oracle : Nat → Except AdapterError α) (jitter : Nat → Nat) (a : α)
    (h : oracle 0 = .ok a) :
    callWithRetry p oracle jitter = ⟨.ok a, 1, []⟩ := by
  simp [callWithRetry, retryGo_ok p oracle jitter 0 _ [] a h]

theorem retryGo_permanent {α : Type} (p : RetryPolicy)
    (oracle : Nat → Except AdapterError α) (jitter : Nat → Nat)
    (i rem : Nat) (ds : List Nat) (e : AdapterError)
    (h : oracle i = .error e) (hp : e.isTransient = false) :
    retryGo p oracle jitter i rem ds = ⟨.error (.permanentFail e), i + 1, ds.reverse⟩ := by
  cases rem <;> simp [retryGo, h, hp]

theorem callWithRetry_permanent {α : Type} (p : RetryPolicy)
    (oracle : Nat → Except AdapterError α) (jitter : Nat → Nat) (e : AdapterError)
    (h : oracle 0 = .error e) (hp : e.isTransient = false) :
    callWithRetry p oracle jitter = ⟨.error (.permanentFail e), 1, []⟩ := by
  simp [callWithRetry, retryGo_permanent p oracle jitter 0 _ [] e h hp]

theorem retryGo_all_transient {α : Type} (p : RetryPolicy)
    (oracle : Nat → Except AdapterError α) (jitter : Nat → Nat)
    (err : Nat → AdapterError) :
    ∀ (rem i : Nat) (ds : List Nat),
      (∀ j, i ≤ j → j ≤ i + rem → oracle j = .error (err j) ∧ (err j).isTransient = true) →
      retryGo p oracle jitter i rem ds =
        ⟨.error (.exhausted (err (i + rem))), i + rem + 1,
          ds.reverse ++ (List.range' i rem).map fun j => backoffDelay p j (jitter j)⟩ := by
  intro rem
  induction rem with
  | zero =>
    intro i ds h
    obtain ⟨h1, h2⟩ := h i le_rfl (by omega)
    simp [retryGo, h1, h2]
  | succ r ih =>
    intro i ds h
    obtain ⟨h1, h2⟩ := h i le_rfl (by omega)
    have := ih (i + 1) (backoffDelay p i (jitter i) :: ds)
      (fun j hj1 hj2 => h j (by omega) (by omega))
    simp only [retryGo, h1, h2, if_true]
    rw [this]
    simp [List.range'_succ]
    constructor
    · congr 1
      omega
    · omega

theorem callWithRetry_exhausted {α : Type} (p : RetryPolicy)
    (oracle : Nat → Except AdapterError α) (jitter : Nat → Nat)
    (err : Nat → AdapterError) (hmax : 1 ≤ p.maxAttempts)
    (h : ∀ j, j < p.maxAttempts → oracle j = .error (err j) ∧ (err j).isTransient = true) :
    callWithRetry p oracle jitter =
      ⟨.error (.exhausted (err (p.maxAttempts - 1))), p.maxAttempts,
        (List.range (p.maxAttempts - 1)).map fun j => backoffDelay p j (jitter j)⟩ := by
  rw [callWithRetry, retryGo_all_transient p oracle jitter err (p.maxAttempts - 1) 0 []
    (fun j hj1 hj2 => h j (by omega))]
  rw [List.range_eq_range']
  simp
  omega

end Infl

namespace Infl

/-! ### Data model (modelled from the spec) -/

/-- Confidence scores in `[0,1]` are modelled in parts-per-million. -/
abbrev Confidence := Nat

/-- The scale of [Confidence] values: `confidenceScale` represents `1.0`. -/
def confidenceScale : Nat := 1000000

/-- Post identity key: `(platform, post id)`, the idempotency anchor. -/
structure PostKey where
  platform : String
  postId : String
deriving DecidableEq

abbrev Url := String

/-- Raw media bytes. -/
abbrev Bytes := List Nat

/-- Content hashes.  Content-addressing is modelled with the bytes themselves
standing for their (injective) content hash. -/
abbrev Hash := List Nat

/-- The (injective) content hash of a byte string. -/
def contentHash (b : Bytes) : Hash := b

/-- Modelled from the spec: one Post-like record returned by the scrape
adapter. -/
structure ScrapedPost where
  key : PostKey
  mediaUrls : List Url
  caption : String
  likes : Nat
  postedAt : Nat
deriving DecidableEq

/-- Modelled from the spec: a stored Post.  `key`, `influencer`, `mediaUrls`
and `postedAt` are immutable once created; `caption` and `likes` are the
mutable metadata refreshed on re-scrape. -/
structure PostRecord where
  key : PostKey
  influencer : String
  mediaUrls : List Url
  caption : String
  likes : Nat
  postedAt : Nat
deriving DecidableEq

/-- The immutable part of a [PostRecord]. -/
def frozen (p : PostRecord) : PostKey × String × List Url × Nat :=
  (p.key, p.influencer, p.mediaUrls, p.postedAt)

/-- Modelled from the spec: a transcript, keyed in the content store by the
MediaArtifact content hash. -/
structure Transcript where
  text : String
  language : String
  confidence : Confidence
deriving DecidableEq

/-- Modelled from the spec: one candidate product mention as returned by the
extraction adapter (retailer URL and price are optional extras the adapter
may supply for buy links). -/
structure RawMention where
  name : String
  brand : String
  category : String
  quote : String
  confidence : Confidence
  retailerUrl : Option Url
  price : Option Nat
deriving DecidableEq

/-- Modelled from the spec: a stored product mention, flagged (not dropped)
when its confidence is below the configured threshold. -/
structure Mention where
  name : String
  brand : String
  category : String
  quote : String
  confidence : Confidence
  lowConfidence : Bool
  retailerUrl : Option Url
  price : Option Nat
deriving DecidableEq

/-- Modelled from the spec: structural validation of an extracted mention —
well-formed fields and confidence in range. -/
def rawMentionValid (m : RawMention) : Bool :=
  !m.name.isEmpty && decide (m.confidence ≤ confidenceScale)

/-- Modelled from the spec: the Extract stage retains every mention and flags
it low-confidence by the fixed boundary rule `confidence < threshold`
(strict); a mention exactly at the threshold is retained unflagged. -/
def flagMention (threshold : Confidence) (m : RawMention) : Mention :=
  ⟨m.name, m.brand, m.category, m.quote, m.confidence,
    decide (m.confidence < threshold), m.retailerUrl, m.price⟩

/-! ### Load stage and relational store (modelled from the spec) -/

/-- Split a character list into its maximal whitespace-free words
(`acc` holds the current word reversed). -/
def wordsAux : List Char → List Char → List (List Char)
  | [], acc => if acc.isEmpty then [] else [acc.reverse]
  | c :: rest, acc =>
    if c.isWhitespace then
      if acc.isEmpty then wordsAux rest [] else acc.reverse :: wordsAux rest []
    else wordsAux rest (c :: acc)

/-- Modelled from the spec: Load-stage normalization of brand/product names —
case-fold, trim, collapse whitespace. -/
def normalizeKey (s : String) : String :=
  ⟨(List.intercalate [' '] (wordsAux s.data [])).map Char.toLower⟩

/-- A Product row of the relational store; identity key is the normalized
`(brand, name)` pair. -/
structure ProductRow where
  id : Nat
  brand : String
  name : String
  category : String
  quote : String
deriving DecidableEq

/-- A BuyLink row; identity key is `(product id, retailer URL)`. -/
structure BuyLinkRow where
  productId : Nat
  retailerUrl : Url
  price : Option Nat
deriving DecidableEq

/-- The relational store written (only) by the Load stage. -/
structure RelStore where
  products : List ProductRow
  buyLinks : List BuyLinkRow
  nextId : Nat
deriving DecidableEq

/-- Natural key of a Product row. -/
def prodKey (p : ProductRow) : String × String := (p.brand, p.name)

/-- Natural key of a BuyLink row. -/
def linkKey (l : BuyLinkRow) : Nat × Url := (l.productId, l.retailerUrl)

/-- Natural key a mention maps to after normalization. -/
def mentionKey (m : Mention) : String × String :=
  (normalizeKey m.brand, normalizeKey m.name)

/-- The id of the product row holding key `k`, if any. -/
def keyId (st : RelStore) (k : String × String) : Option Nat :=
  (st.products.find? fun p => decide (prodKey p = k)).map ProductRow.id

/-- Modelled from the spec: upsert-by-natural-key of a Product — insert if
absent, otherwise leave existing fields (first-seen wins).  Returns the id of
the row holding the mention's key. -/
def upsertProduct (st : RelStore) (m : Mention) : RelStore × Nat :=
  match st.products.find? fun p => decide (prodKey p = mentionKey m) with
  | some p => (st, p.id)
  | none =>
    ({ st with
        products := st.products ++
          [⟨st.nextId, (mentionKey m).1, (mentionKey m).2, m.category, m.quote⟩],
        nextId := st.nextId + 1 }, st.nextId)

/-- Modelled from the spec: upsert-by-natural-key of a BuyLink — update
price in place if the `(product id, retailer URL)` key exists, insert
otherwise. -/
def upsertBuyLink (st : RelStore) (pid : Nat) (url : Url) (price : Option Nat) :
    RelStore :=
  if st.buyLinks.any fun l => decide (linkKey l = (pid, url)) then
    { st with buyLinks := st.buyLinks.map fun l =>
        if linkKey l = (pid, url) then { l with price := price } else l }
  else
    { st with buyLinks := st.buyLinks ++ [⟨pid, url, price⟩] }

/-- Modelled from the spec: load one mention — upsert its Product, then (when
extraction supplied a retailer URL) upsert its BuyLink. -/
def loadMention (st : RelStore) (m : Mention) : RelStore :=
  let r := upsertProduct st m
  match m.retailerUrl with
  | none => r.1
  | some url => upsertBuyLink r.1 r.2 url m.price

/-- Modelled from the spec: the Load stage over an extracted mention set. -/
def loadMentions (st : RelStore) (ms : List Mention) : RelStore :=
  ms.foldl loadMention st

/-- Store well-formedness: natural keys are unique in both tables. -/
def RelStore.wf (st : RelStore) : Prop :=
  (st.products.map prodKey).Nodup ∧ (st.buyLinks.map linkKey).Nodup

end Infl

namespace Infl

/-! ### Load-stage lemmas (upsert safety, C2) -/

theorem countP_key_eq_one {α κ : Type} [DecidableEq κ] (f : α → κ) (k : κ) :
    ∀ l : List α, (l.map f).Nodup → (∃ a ∈ l, f a = k) →
      (l.countP fun a => decide (f a = k)) = 1 := by
  intro l
  induction l with
  | nil => intro _ h; simp at h
  | cons a rest ih =>
    intro hnd hex
    simp only [List.map_cons, List.nodup_cons] at hnd
    obtain ⟨hna, hnd⟩ := hnd
    by_cases hk : f a = k
    · rw [List.countP_cons_of_pos _ _ (by simp [hk])]
      have hz : (rest.countP fun b => decide (f b = k)) = 0 := by
        rw [List.countP_eq_zero]
        intro b hb
        simp only [decide_eq_true_eq]
        intro hfb
        exact hna (by rw [hk, ← hfb]; exact List.mem_map_of_mem f hb)
      omega
    · rw [List.countP_cons_of_neg _ _ (by simp [hk])]
      apply ih hnd
      rcases hex with ⟨b, hb, hfb⟩
      rcases List.mem_cons.mp hb with hb | hb
      · exact absurd (hb ▸ hfb) hk
      · exact ⟨b, hb, hfb⟩

theorem upsertBuyLink_products (st : RelStore) (pid : Nat) (url : Url)
    (price : Option Nat) : (upsertBuyLink st pid url price).products = st.products := by
  unfold upsertBuyLink
  split <;> rfl

theorem upsertProduct_buyLinks (st : RelStore) (m : Mention) :
    (upsertProduct st m).1.buyLinks = st.buyLinks := by
  unfold upsertProduct
  cases hf : st.products.find? fun p => decide (prodKey p = mentionKey m) <;> simp

theorem loadMention_products_append (st : RelStore) (m : Mention) :
    ∃ tail, (loadMention st m).products = st.products ++ tail := by
  unfold loadMention
  cases hf : st.products.find? fun p => decide (prodKey p = mentionKey m) with
  | some p =>
    cases hr : m.retailerUrl with
    | none => exact ⟨[], by simp [upsertProduct, hf, hr]⟩
    | some url => exact ⟨[], by simp [upsertProduct, hf, hr, upsertBuyLink_products]⟩
  | none =>
    cases hr : m.retailerUrl with
    | none =>
      exact ⟨[⟨st.nextId, (mentionKey m).1, (mentionKey m).2, m.category, m.quote⟩],
        by simp [upsertProduct, hf, hr]⟩
    | some url =>
      exact ⟨[⟨st.nextId, (mentionKey m).1, (mentionKey m).2, m.category, m.quote⟩],
        by simp [upsertProduct, hf, hr, upsertBuyLink_products]⟩

theorem keyId_some_imp (st : RelStore) (k : String × String) (pid : Nat)
    (h : keyId st k = some pid) :
    ∃ p ∈ st.products, prodKey p = k ∧ p.id = pid := by
  unfold keyId at h
  cases hf : st.products.find? fun p => decide (prodKey p = k) with
  | none => rw [hf] at h; simp at h
  | some p =>
    rw [hf] at h
    simp at h
    exact ⟨p, List.mem_of_find?_eq_some hf,
      by simpa using List.find?_some hf, h⟩

theorem keyId_mono (st : RelStore) (m' : Mention) (k : String × String) (pid : Nat)
    (h : keyId st k = some pid) : keyId (loadMention st m') k = some pid := by
  obtain ⟨tail, ht⟩ := loadMention_products_append st m'
  unfold keyId at h ⊢
  rw [ht, List.find?_append]
  cases hf : st.products.find? fun p => decide (prodKey p = k) with
  | none => rw [hf] at h; simp at h
  | some p => rw [hf] at h; simpa using h

theorem upsertBuyLink_key_mono (st : RelStore) (pid0 : Nat) (url0 : Url)
    (price : Option Nat) (pid : Nat) (url : Url)
    (h : ∃ l ∈ st.buyLinks, linkKey l = (pid, url)) :
    ∃ l ∈ (upsertBuyLink st pid0 url0 price).buyLinks, linkKey l = (pid, url) := by
  obtain ⟨l, hl, hk⟩ := h
  unfold upsertBuyLink
  split
  · refine ⟨_, List.mem_map_of_mem _ hl, ?_⟩
    by_cases hc : linkKey l = (pid0, url0)
    · simp only [hc, if_true, if_pos]
      simpa [linkKey] using hk
    · simpa [hc] using hk
  · exact ⟨l, List.mem_append_left _ hl, hk⟩

theorem upsertBuyLink_establishes (st : RelStore) (pid : Nat) (url : Url)
    (price : Option Nat) :
    ∃ l ∈ (upsertBuyLink st pid url price).buyLinks, linkKey l = (pid, url) := by
  unfold upsertBuyLink
  split
  · next hany =>
    rw [List.any_eq_true] at hany
    obtain ⟨l, hl, hdec⟩ := hany
    rw [decide_eq_true_eq] at hdec
    refine ⟨_, List.mem_map_of_mem _ hl, ?_⟩
    simp only [hdec, if_true, if_pos]
    simpa [linkKey, Prod.ext_iff] using hdec
  · exact ⟨⟨pid, url, price⟩, List.mem_append_right _ (by simp), rfl⟩

theorem upsertProduct_keyId (st : RelStore) (m : Mention) :
    keyId (upsertProduct st m).1 (mentionKey m) = some (upsertProduct st m).2 := by
  unfold upsertProduct keyId
  cases hf : st.products.find? fun p => decide (prodKey p = mentionKey m) with
  | some p => simp [hf]
  | none =>
    simp only [hf]
    rw [List.find?_append, hf]
    simp [List.find?, prodKey]

theorem keyId_upsertBuyLink (st : RelStore) (pid0 : Nat) (url0 : Url)
    (price : Option Nat) (k : String × String) :
    keyId (upsertBuyLink st pid0 url0 price) k = keyId st k := by
  unfold keyId
  rw [upsertBuyLink_products]

theorem loadMention_establishes (st : RelStore) (m : Mention) :
    (∃ p ∈ (loadMention st m).products, prodKey p = mentionKey m) ∧
      ∀ url, m.retailerUrl = some url →
        ∃ pid, keyId (loadMention st m) (mentionKey m) = some pid ∧
          ∃ l ∈ (loadMention st m).buyLinks, linkKey l = (pid, url) := by
  have hkid := upsertProduct_keyId st m
  unfold loadMention
  cases hr : m.retailerUrl with
  | none =>
    refine ⟨?_, by intro url h; simp [hr] at h⟩
    obtain ⟨p, hp, hpk, _⟩ := keyId_some_imp _ _ _ hkid
    exact ⟨p, hp, hpk⟩
  | some url0 =>
    constructor
    · obtain ⟨p, hp, hpk, _⟩ := keyId_some_imp _ _ _ hkid
      refine ⟨p, ?_, hpk⟩
      rw [upsertBuyLink_products]
      exact hp
    · intro url h
      injection h with h
      subst h
      refine ⟨(upsertProduct st m).2, ?_, ?_⟩
      · rw [keyId_upsertBuyLink]
        exact hkid
      · exact upsertBuyLink_establishes _ _ _ _

end Infl

namespace Infl

theorem upsertProduct_wf (st : RelStore) (m : Mention) (h : st.wf) :
    (upsertProduct st m).1.wf := by
  obtain ⟨h1, h2⟩ := h
  unfold upsertProduct
  cases hf : st.products.find? fun p => decide (prodKey p = mentionKey m) with
  | some p => exact ⟨h1, h2⟩
  | none =>
    refine ⟨?_, h2⟩
    simp only [List.map_append]
    rw [List.nodup_append]
    refine ⟨h1, by simp, ?_⟩
    intro x hx hx2
    simp only [List.map_cons, List.map_nil, List.mem_singleton] at hx2
    subst hx2
    obtain ⟨p, hp, hpk⟩ := List.mem_map.mp hx
    have := List.find?_eq_none.mp hf p hp
    rw [decide_eq_true_eq] at this
    apply this
    rw [hpk]
    simp [prodKey]

theorem upsertBuyLink_wf (st : RelStore) (pid : Nat) (url : Url)
    (price : Option Nat) (h : st.wf) : (upsertBuyLink st pid url price).wf := by
  obtain ⟨h1, h2⟩ := h
  unfold upsertBuyLink
  split
  · refine ⟨h1, ?_⟩
    have hmm : ((st.buyLinks.map fun l =>
        if linkKey l = (pid, url) then { l with price := price } else l).map linkKey) =
        st.buyLinks.map linkKey := by
      rw [List.map_map]
      apply List.map_congr_left
      intro l _
      simp only [Function.comp_apply]
      by_cases hc : linkKey l = (pid, url)
      · rw [if_pos hc]
        simp [linkKey]
      · rw [if_neg hc]
    simpa [hmm] using h2
  · next hany =>
    refine ⟨h1, ?_⟩
    simp only [List.map_append]
    rw [List.nodup_append]
    refine ⟨h2, by simp, ?_⟩
    intro x hx hx2
    simp only [List.map_cons, List.map_nil, List.mem_singleton] at hx2
    subst hx2
    obtain ⟨l, hl, hlk⟩ := List.mem_map.mp hx
    rw [List.any_eq_true] at hany
    refine hany ⟨l, hl, ?_⟩
    rw [decide_eq_true_eq, hlk]
    rfl

theorem loadMention_wf (st : RelStore) (m : Mention) (h : st.wf) :
    (loadMention st m).wf := by
  unfold loadMention
  cases hr : m.retailerUrl with
  | none => exact upsertProduct_wf st m h
  | some url => exact upsertBuyLink_wf _ _ _ _ (upsertProduct_wf st m h)

theorem loadMentions_wf : ∀ (ms : List Mention) (st : RelStore), st.wf →
    (loadMentions st ms).wf := by
  intro ms
  induction ms with
  | nil => intro st h; exact h
  | cons m rest ih =>
    intro st h
    exact ih (loadMention st m) (loadMention_wf st m h)

theorem loadMentions_products_append : ∀ (ms : List Mention) (st : RelStore),
    ∃ tail, (loadMentions st ms).products = st.products ++ tail := by
  intro ms
  induction ms with
  | nil => intro st; exact ⟨[], by simp [loadMentions]⟩
  | cons m rest ih =>
    intro st
    obtain ⟨t1, h1⟩ := loadMention_products_append st m
    obtain ⟨t2, h2⟩ := ih (loadMention st m)
    exact ⟨t1 ++ t2, by simp [loadMentions] at h2 ⊢; rw [h2, h1, List.append_assoc]⟩

theorem keyId_loadMentions_mono : ∀ (ms : List Mention) (st : RelStore)
    (k : String × String) (pid : Nat), keyId st k = some pid →
    keyId (loadMentions st ms) k = some pid := by
  intro ms
  induction ms with
  | nil => intro st k pid h; exact h
  | cons m rest ih =>
    intro st k pid h
    exact ih (loadMention st m) k pid (keyId_mono st m k pid h)

theorem loadMention_buyLinks_key_mono (st : RelStore) (m : Mention) (pid : Nat)
    (url : Url) (h : ∃ l ∈ st.buyLinks, linkKey l = (pid, url)) :
    ∃ l ∈ (loadMention st m).buyLinks, linkKey l = (pid, url) := by
  unfold loadMention
  cases hr : m.retailerUrl with
  | none => rw [upsertProduct_buyLinks]; exact h
  | some url0 =>
    apply upsertBuyLink_key_mono
    rw [upsertProduct_buyLinks]
    exact h

theorem buyLinks_loadMentions_key_mono : ∀ (ms : List Mention) (st : RelStore)
    (pid : Nat) (url : Url), (∃ l ∈ st.buyLinks, linkKey l = (pid, url)) →
    ∃ l ∈ (loadMentions st ms).buyLinks, linkKey l = (pid, url) := by
  intro ms
  induction ms with
  | nil => intro st pid url h; exact h
  | cons m rest ih =>
    intro st pid url h
    exact ih (loadMention st m) pid url (loadMention_buyLinks_key_mono st m pid url h)

theorem loadMentions_establishes : ∀ (ms : List Mention) (st : RelStore)
    (m : Mention), m ∈ ms →
    (∃ p ∈ (loadMentions st ms).products, prodKey p = mentionKey m) ∧
      ∀ url, m.retailerUrl = some url →
        ∃ pid, keyId (loadMentions st ms) (mentionKey m) = some pid ∧
          ∃ l ∈ (loadMentions st ms).buyLinks, linkKey l = (pid, url) := by
  intro ms
  induction ms with
  | nil => intro st m h; simp at h
  | cons m0 rest ih =>
    intro st m hm
    rcases List.mem_cons.mp hm with hm | hm
    · subst hm
      have hest := loadMention_establishes st m
      constructor
      · obtain ⟨p, hp, hpk⟩ := hest.1
        obtain ⟨tail, ht⟩ := loadMentions_products_append rest (loadMention st m)
        refine ⟨p, ?_, hpk⟩
        show p ∈ (loadMentions (loadMention st m) rest).products
        rw [ht]
        exact List.mem_append_left _ hp
      · intro url hurl
        obtain ⟨pid, hk, hlink⟩ := hest.2 url hurl
        exact ⟨pid, keyId_loadMentions_mono rest _ _ _ hk,
          buyLinks_loadMentions_key_mono rest _ _ _ hlink⟩
    · exact ih (loadMention st m0) m hm

/-- C2: for every extracted mention set, invoking the Load stage twice with
that identical input leaves exactly one Product row for the normalized
`(brand, product_name)` key and (when a retailer URL was supplied) exactly one
BuyLink row for the `(product id, retailer URL)` key — no duplicate rows or
links are ever created.  Holds for any initially key-unique store. -/
theorem load_twice_no_duplicates (st : RelStore) (ms : List Mention) (m : Mention)
    (hwf : st.wf) (hm : m ∈ ms) :
    ((loadMentions (loadMentions st ms) ms).products.countP
        fun p => decide (prodKey p = mentionKey m)) = 1 ∧
      ∀ url, m.retailerUrl = some url →
        ∃ pid, keyId (loadMentions (loadMentions st ms) ms) (mentionKey m) = some pid ∧
          ((loadMentions (loadMentions st ms) ms).buyLinks.countP
            fun l => decide (linkKey l = (pid, url))) = 1 := by
  have hwf2 := loadMentions_wf ms (loadMentions st ms) (loadMentions_wf ms st hwf)
  have hest := loadMentions_establishes ms st m hm
  constructor
  · apply countP_key_eq_one prodKey (mentionKey m) _ hwf2.1
    obtain ⟨p, hp, hpk⟩ := hest.1
    obtain ⟨tail, ht⟩ := loadMentions_products_append ms (loadMentions st ms)
    exact ⟨p, by rw [ht]; exact List.mem_append_left _ hp, hpk⟩
  · intro url hurl
    obtain ⟨pid, hk, hlink⟩ := hest.2 url hurl
    refine ⟨pid, keyId_loadMentions_mono ms _ _ _ hk, ?_⟩
    exact countP_key_eq_one linkKey (pid, url) _ hwf2.2
      (buyLinks_loadMentions_key_mono ms _ _ _ hlink)

/-- Witness for C2: loading a one-mention set (with a retailer URL) twice into
the empty store leaves a single Product row and a single BuyLink row. -/
theorem load_twice_no_duplicates_witness :
    ((loadMentions (loadMentions ⟨[], [], 0⟩
        [⟨"Foundation", " Fenty  Beauty ", "makeup", "q", 900000, false, some "https://r.example/x", some 35⟩])
        [⟨"Foundation", " Fenty  Beauty ", "makeup", "q", 900000, false, some "https://r.example/x", some 35⟩]).products.countP
        fun p => decide (prodKey p = mentionKey
          ⟨"Foundation", " Fenty  Beauty ", "makeup", "q", 900000, false, some "https://r.example/x", some 35⟩)) = 1 ∧
      ∀ url, (some "https://r.example/x" : Option Url) = some url →
        ∃ pid, keyId (loadMentions (loadMentions ⟨[], [], 0⟩
            [⟨"Foundation", " Fenty  Beauty ", "makeup", "q", 900000, false, some "https://r.example/x", some 35⟩])
            [⟨"Foundation", " Fenty  Beauty ", "makeup", "q", 900000, false, some "https://r.example/x", some 35⟩])
          (mentionKey ⟨"Foundation", " Fenty  Beauty ", "makeup", "q", 900000, false, some "https://r.example/x", some 35⟩) = some pid ∧
          ((loadMentions (loadMentions ⟨[], [], 0⟩
            [⟨"Foundation", " Fenty  Beauty ", "makeup", "q", 900000, false, some "https://r.example/x", some 35⟩])
            [⟨"Foundation", " Fenty  Beauty ", "makeup", "q", 900000, false, some "https://r.example/x", some 35⟩]).buyLinks.countP
            fun l => decide (linkKey l = (pid, url))) = 1 :=
  load_twice_no_duplicates ⟨[], [], 0⟩
    [⟨"Foundation", " Fenty  Beauty ", "makeup", "q", 900000, false, some "https://r.example/x", some 35⟩]
    ⟨"Foundation", " Fenty  Beauty ", "makeup", "q", 900000, false, some "https://r.example/x", some 35⟩
    ⟨by simp, by simp⟩ (by simp)

end Infl

namespace Infl

/-! ### Content store, adapters and stage runners (modelled from the spec) -/

/-- Modelled from the spec: the durable content-addressed cache — scrape
metadata keyed by influencer handle, a URL→hash index, media artifacts keyed
by content hash, transcripts keyed by artifact content hash, and the stored
mention set per Post. -/
structure ContentStore where
  scrapeCache : List (String × List ScrapedPost)
  urlIndex : List (Url × Hash)
  artifacts : List (Hash × Bytes)
  transcripts : List (Hash × Transcript)
  mentionSets : List (PostKey × List Mention)
deriving DecidableEq

/-- Modelled from the spec: the external services, as attempt-indexed oracles
(the `Nat` argument is the retry attempt number, letting the environment
answer differently on each attempt). -/
structure Adapters where
  scrape : String → Nat → Except AdapterError (List ScrapedPost)
  fetch : Url → Nat → Except AdapterError Bytes
  stt : Bytes → Nat → Except AdapterError Transcript
  extract : String → String → Nat → Except AdapterError (List RawMention)

/-- Modelled from the spec: run configuration — retry policy, jitter source
and the confidence threshold for flagging low-confidence mentions. -/
structure RunConfig where
  policy : RetryPolicy
  jitter : Nat → Nat
  threshold : Confidence

/-- External-service call counts per stage of one run. -/
structure Calls where
  scrape : Nat
  download : Nat
  transcribe : Nat
  extract : Nat
deriving DecidableEq

/-- No calls. -/
def Calls.zero : Calls := ⟨0, 0, 0, 0⟩

/-- Componentwise sum of call counts. -/
def Calls.add (a b : Calls) : Calls :=
  ⟨a.scrape + b.scrape, a.download + b.download,
    a.transcribe + b.transcribe, a.extract + b.extract⟩

/-- Modelled from the spec: download one media URL.  A URL already in the
index is a cache hit (no network call); otherwise fetch with retry, and if an
artifact with the resulting content hash already exists under a different URL
link it instead of storing a second copy.  Nothing is stored on failure. -/
def downloadOne (env : Adapters) (cfg : RunConfig) (cs : ContentStore)
    (url : Url) : ContentStore × Except CallFail Hash × Nat :=
  match alookup url cs.urlIndex with
  | some h => (cs, .ok h, 0)
  | none =>
    let r := callWithRetry cfg.policy (env.fetch url) cfg.jitter
    match r.outcome with
    | .ok bytes =>
      let h := contentHash bytes
      match alookup h cs.artifacts with
      | some _ => ({ cs with urlIndex := (url, h) :: cs.urlIndex }, .ok h, r.attempts)
      | none =>
        ({ cs with urlIndex := (url, h) :: cs.urlIndex,
                   artifacts := (h, bytes) :: cs.artifacts }, .ok h, r.attempts)
    | .error f => (cs, .error f, r.attempts)

/-- Download a Post's media URLs in order, stopping at the first failure. -/
def downloadAll (env : Adapters) (cfg : RunConfig) (cs : ContentStore) :
    List Url → ContentStore × Except CallFail (List Hash) × Nat
  | [] => (cs, .ok [], 0)
  | u :: rest =>
    match downloadOne env cfg cs u with
    | (cs1, .ok h, n) =>
      match downloadAll env cfg cs1 rest with
      | (cs2, .ok hs, m) => (cs2, .ok (h :: hs), n + m)
      | (cs2, .error f, m) => (cs2, .error f, n + m)
    | (cs1, .error f, n) => (cs1, .error f, n)

/-- Modelled from the spec: transcribe one artifact.  A transcript already
stored under the content hash is a cache hit shared across Posts (no external
call); otherwise invoke speech-to-text with retry and store the transcript
keyed by content hash. -/
def transcribeOne (env : Adapters) (cfg : RunConfig) (cs : ContentStore)
    (h : Hash) : ContentStore × Except CallFail Unit × Nat :=
  match alookup h cs.transcripts with
  | some _ => (cs, .ok (), 0)
  | none =>
    match alookup h cs.artifacts with
    | none => (cs, .error (.permanentFail .unsupported), 0)
    | some bytes =>
      let r := callWithRetry cfg.policy (env.stt bytes) cfg.jitter
      match r.outcome with
      | .ok t => ({ cs with transcripts := (h, t) :: cs.transcripts }, .ok (), r.attempts)
      | .error f => (cs, .error f, r.attempts)

/-- Transcribe each artifact of a Post, stopping at the first failure. -/
def transcribeAll (env : Adapters) (cfg : RunConfig) (cs : ContentStore) :
    List Hash → ContentStore × Except CallFail Unit × Nat
  | [] => (cs, .ok (), 0)
  | h :: rest =>
    match transcribeOne env cfg cs h with
    | (cs1, .ok _, n) =>
      match transcribeAll env cfg cs1 rest with
      | (cs2, o, m) => (cs2, o, n + m)
    | (cs1, .error f, n) => (cs1, .error f, n)

/-- The transcript text available for a Post's artifacts (empty for a Post
with no media: the caption-only path). -/
def transcriptTextFor (cs : ContentStore) (hs : List Hash) : String :=
  String.intercalate " "
    (hs.filterMap fun h => (alookup h cs.transcripts).map Transcript.text)

/-- Modelled from the spec: structural validation of the extraction adapter's
output; a malformed mention set is an adapter-level `malformedOutput` error. -/
def validateMentions (ms : List RawMention) :
    Except AdapterError (List RawMention) :=
  if ms.all rawMentionValid then .ok ms else .error .malformedOutput

/-! ### Per-Post pipeline state and orchestration (modelled from the spec) -/

/-- Per-stage status recorded in PipelineState. -/
inductive StageStatus where
  | pending
  | inProgress
  | done
  | failedTransient
  | failedPermanent
deriving DecidableEq

/-- Per-stage record: status, content hashes of the stage's output (for cache
lookup) and a retry counter. -/
structure StageState where
  status : StageStatus
  outputHashes : List Hash
  retries : Nat
deriving DecidableEq

/-- The five pipeline stages. -/
inductive Stage where
  | scrape
  | download
  | transcribe
  | extract
  | load
deriving DecidableEq

/-- The stages in pipeline order. -/
def Stage.stages : List Stage := [.scrape, .download, .transcribe, .extract, .load]

/-- The predecessor of a stage in pipeline order. -/
def Stage.pred : Stage → Option Stage
  | .scrape => none
  | .download => some .scrape
  | .transcribe => some .download
  | .extract => some .transcribe
  | .load => some .extract

/-- Modelled from the spec: the durable per-Post, per-stage progress record —
the resumability anchor. -/
structure PipelineState where
  scrape : StageState
  download : StageState
  transcribe : StageState
  extract : StageState
  load : StageState
deriving DecidableEq

/-- The record of one stage. -/
def stageState (ps : PipelineState) : Stage → StageState
  | .scrape => ps.scrape
  | .download => ps.download
  | .transcribe => ps.transcribe
  | .extract => ps.extract
  | .load => ps.load

/-- Replace the record of one stage. -/
def setStage (ps : PipelineState) : Stage → StageState → PipelineState
  | .scrape, st => { ps with scrape := st }
  | .download, st => { ps with download := st }
  | .transcribe, st => { ps with transcribe := st }
  | .extract, st => { ps with extract := st }
  | .load, st => { ps with load := st }

/-- PipelineState of a freshly scraped Post: scrape done, the rest pending. -/
def freshState : PipelineState :=
  ⟨⟨.done, [], 0⟩, ⟨.pending, [], 0⟩, ⟨.pending, [], 0⟩, ⟨.pending, [], 0⟩,
    ⟨.pending, [], 0⟩⟩

/-- Modelled from the spec: a stage may run only when it is itself pending
and its predecessor (if any) is done. -/
def runnable (ps : PipelineState) (s : Stage) : Bool :=
  decide ((stageState ps s).status = .pending) &&
    match s.pred with
    | none => true
    | some p => decide ((stageState ps p).status = .done)

/-- The next stage the orchestrator runs for a Post, in pipeline order. -/
def nextStage (ps : PipelineState) : Option Stage :=
  Stage.stages.find? (runnable ps)

/-- Execute one stage for one Post: returns the updated content store,
relational store, the stage's new record, and the external calls made. -/
def execStage (env : Adapters) (cfg : RunConfig) (cs : ContentStore)
    (rel : RelStore) (post : PostRecord) (ps : PipelineState) :
    Stage → ContentStore × RelStore × StageState × Calls
  | .scrape => (cs, rel, ⟨.done, [], 0⟩, Calls.zero)
  | .download =>
    match downloadAll env cfg cs post.mediaUrls with
    | (cs1, .ok hs, n) => (cs1, rel, ⟨.done, hs, n⟩, { Calls.zero with download := n })
    | (cs1, .error _, n) =>
      (cs1, rel, ⟨.failedPermanent, [], n⟩, { Calls.zero with download := n })
  | .transcribe =>
    match transcribeAll env cfg cs ps.download.outputHashes with
    | (cs1, .ok _, n) =>
      (cs1, rel, ⟨.done, ps.download.outputHashes, n⟩, { Calls.zero with transcribe := n })
    | (cs1, .error _, n) =>
      (cs1, rel, ⟨.failedPermanent, [], n⟩, { Calls.zero with transcribe := n })
  | .extract =>
    match alookup post.key cs.mentionSets with
    | some _ => (cs, rel, ⟨.done, [], 0⟩, Calls.zero)
    | none =>
      let text := transcriptTextFor cs ps.download.outputHashes
      let r := callWithRetry cfg.policy
        (fun i => (env.extract text post.caption i).bind validateMentions) cfg.jitter
      match r.outcome with
      | .ok ms =>
        ({ cs with mentionSets :=
            setAssoc post.key (ms.map (flagMention cfg.threshold)) cs.mentionSets },
          rel, ⟨.done, [], r.attempts⟩, { Calls.zero with extract := r.attempts })
      | .error _ =>
        (cs, rel, ⟨.failedPermanent, [], r.attempts⟩,
          { Calls.zero with extract := r.attempts })
  | .load =>
    (cs, loadMentions rel ((alookup post.key cs.mentionSets).getD []),
      ⟨.done, [], 0⟩, Calls.zero)

/-- Result of driving one Post through the pipeline: final stores and state,
external calls made, and the trace of stage starts (each paired with the
PipelineState at the moment the stage started). -/
structure PostRun where
  cs : ContentStore
  rel : RelStore
  ps : PipelineState
  calls : Calls
  trace : List (Stage × PipelineState)
deriving DecidableEq

/-- Orchestrator driver for one Post: repeatedly run the next runnable stage
(fuelled; five stages suffice). -/
def runPostAux (env : Adapters) (cfg : RunConfig) (post : PostRecord) :
    Nat → ContentStore → RelStore → PipelineState → Calls →
      List (Stage × PipelineState) → PostRun
  | 0, cs, rel, ps, c, tr => ⟨cs, rel, ps, c, tr.reverse⟩
  | Nat.succ fuel, cs, rel, ps, c, tr =>
    match nextStage ps with
    | none => ⟨cs, rel, ps, c, tr.reverse⟩
    | some s =>
      match execStage env cfg cs rel post ps s with
      | (cs1, rel1, st1, c1) =>
        runPostAux env cfg post fuel cs1 rel1 (setStage ps s st1) (c.add c1)
          ((s, ps) :: tr)

/-- Modelled from the spec: drive one Post through all remaining stages,
deriving the remaining work purely from its persisted PipelineState. -/
def runPost (env : Adapters) (cfg : RunConfig) (cs : ContentStore)
    (rel : RelStore) (post : PostRecord) (ps : PipelineState) : PostRun :=
  runPostAux env cfg post 6 cs rel ps Calls.zero []

end Infl

namespace Infl

/-! ### Scrape phase and full-pipeline orchestration (modelled from the spec) -/

/-- The Post table and PipelineState table. -/
structure PipeDB where
  posts : List PostRecord
  states : List (PostKey × PipelineState)
deriving DecidableEq

/-- The whole mutable world of one pipeline run. -/
structure World where
  cs : ContentStore
  db : PipeDB
  rel : RelStore
deriving DecidableEq

/-- Modelled from the spec: apply one scraped Post record.  A new
`(platform, post id)` creates a Post plus a fresh PipelineState (scrape done,
rest pending); an existing one has only its mutable metadata (caption/likes)
refreshed, with every PipelineState left untouched. -/
def applyScrapedPost (db : PipeDB) (inf : String) (sp : ScrapedPost) : PipeDB :=
  if db.posts.any fun p => p.key = sp.key then
    { db with posts := db.posts.map fun p =>
        if p.key = sp.key then { p with caption := sp.caption, likes := sp.likes } else p }
  else
    { posts := ⟨sp.key, inf, sp.mediaUrls, sp.caption, sp.likes, sp.postedAt⟩ :: db.posts,
      states := (sp.key, freshState) :: db.states }

/-- Apply every Post returned by one scrape. -/
def applyScraped (db : PipeDB) (inf : String) (sps : List ScrapedPost) : PipeDB :=
  sps.foldl (fun d sp => applyScrapedPost d inf sp) db

/-- Modelled from the spec: the scrape phase for one influencer.  Scrape
metadata cached in the content store is a cache hit (no external call);
otherwise the scrape adapter is called with retry and its result cached.
Returns the keys of the Posts this influencer's scrape yields. -/
def scrapePhase (env : Adapters) (cfg : RunConfig) (w : World) (handle : String) :
    World × List PostKey × Calls :=
  match alookup handle w.cs.scrapeCache with
  | some sps =>
    ({ w with db := applyScraped w.db handle sps }, sps.map ScrapedPost.key, Calls.zero)
  | none =>
    let r := callWithRetry cfg.policy (env.scrape handle) cfg.jitter
    match r.outcome with
    | .ok sps =>
      ({ w with
          cs := { w.cs with scrapeCache := setAssoc handle sps w.cs.scrapeCache },
          db := applyScraped w.db handle sps },
        sps.map ScrapedPost.key, { Calls.zero with scrape := r.attempts })
    | .error _ => (w, [], { Calls.zero with scrape := r.attempts })

/-- Run the per-Post pipeline for one Post key, persisting the final
PipelineState. -/
def runPostFor (env : Adapters) (cfg : RunConfig) (w : World) (k : PostKey) :
    World × Calls :=
  match w.db.posts.find? fun p => decide (p.key = k), alookup k w.db.states with
  | some post, some ps =>
    let res := runPost env cfg w.cs w.rel post ps
    (⟨res.cs, { w.db with states := setAssoc k res.ps w.db.states }, res.rel⟩, res.calls)
  | _, _ => (w, Calls.zero)

/-- Modelled from the spec: process one influencer — scrape phase, then drive
each of its Posts through the remaining stages. -/
def runInfluencer (env : Adapters) (cfg : RunConfig) (w : World)
    (handle : String) : World × Calls :=
  match scrapePhase env cfg w handle with
  | (w1, keys, c1) =>
    keys.foldl
      (fun wc k =>
        match runPostFor env cfg wc.1 k with
        | (w2, c2) => (w2, wc.2.add c2))
      (w1, c1)

/-- Modelled from the spec: one full pipeline run over a target influencer
set. -/
def runPipeline (env : Adapters) (cfg : RunConfig) (w : World)
    (handles : List String) : World × Calls :=
  handles.foldl
    (fun wc h =>
      match runInfluencer env cfg wc.1 h with
      | (w2, c2) => (w2, wc.2.add c2))
    (w, Calls.zero)

/-- All five stages of a PipelineState are done. -/
def allDoneB (ps : PipelineState) : Bool :=
  decide (ps.scrape.status = .done) && decide (ps.download.status = .done) &&
    decide (ps.transcribe.status = .done) && decide (ps.extract.status = .done) &&
    decide (ps.load.status = .done)

/-- One scraped Post is fully processed in the world: it exists and its
persisted PipelineState is done at every stage. -/
def postDoneB (w : World) (sp : ScrapedPost) : Bool :=
  (w.db.posts.any fun p => decide (p.key = sp.key)) &&
    match alookup sp.key w.db.states with
    | some ps => allDoneB ps
    | none => false

/-- Every targeted influencer's scrape is cached and every Post it yields is
fully processed: the precondition of the idempotent second run. -/
def fullyProcessedB (w : World) (handles : List String) : Bool :=
  handles.all fun h =>
    match alookup h w.cs.scrapeCache with
    | some sps => sps.all (postDoneB w)
    | none => false

end Infl

namespace Infl

/-! ### C5: metadata refresh leaves PipelineState untouched -/

theorem applyScrapedPost_existing (db : PipeDB) (inf : String) (sp : ScrapedPost)
    (hmem : (db.posts.any fun p => decide (p.key = sp.key)) = true) :
    (applyScrapedPost db inf sp).states = db.states ∧
      (applyScrapedPost db inf sp).posts =
        (db.posts.map fun p =>
          if p.key = sp.key then { p with caption := sp.caption, likes := sp.likes } else p) := by
  unfold applyScrapedPost
  rw [hmem]
  exact ⟨rfl, rfl⟩

theorem refreshed_frozen (sp : ScrapedPost) (l : List PostRecord) :
    (l.map fun p =>
        if p.key = sp.key then { p with caption := sp.caption, likes := sp.likes } else p).map
      frozen = l.map frozen := by
  rw [List.map_map]
  apply List.map_congr_left
  intro p _
  simp only [Function.comp_apply]
  by_cases hc : p.key = sp.key
  · rw [if_pos hc]
    simp [frozen]
  · rw [if_neg hc]

/-- C5: when the Scrape stage returns a Post whose `(platform, post id)`
already exists, only mutable metadata (caption/likes) is refreshed: the
PipelineState table is exactly unchanged (so no `done` stage can regress to
`pending`), every immutable Post field is preserved, the matching Post carries
the new caption/likes, and unrelated Posts are untouched. -/
theorem scrape_refresh_preserves_state (db : PipeDB) (inf : String)
    (sp : ScrapedPost)
    (hmem : (db.posts.any fun p => decide (p.key = sp.key)) = true) :
    (applyScrapedPost db inf sp).states = db.states ∧
      (∀ k st, alookup k db.states = some st →
        alookup k (applyScrapedPost db inf sp).states = some st) ∧
      (applyScrapedPost db inf sp).posts.map frozen = db.posts.map frozen ∧
      (∀ p ∈ (applyScrapedPost db inf sp).posts,
        p.key = sp.key → p.caption = sp.caption ∧ p.likes = sp.likes) ∧
      ∀ p ∈ db.posts, ¬ p.key = sp.key → p ∈ (applyScrapedPost db inf sp).posts := by
  obtain ⟨hst, hpo⟩ := applyScrapedPost_existing db inf sp hmem
  refine ⟨hst, fun k st h => by rw [hst]; exact h, ?_, ?_, ?_⟩
  · rw [hpo]
    exact refreshed_frozen sp db.posts
  · intro p hp hk
    rw [hpo] at hp
    obtain ⟨q, hq, hqp⟩ := List.mem_map.mp hp
    by_cases hc : q.key = sp.key
    · rw [if_pos hc] at hqp
      rw [← hqp]
      exact ⟨rfl, rfl⟩
    · rw [if_neg hc] at hqp
      exact absurd (hqp ▸ hk) hc
  · intro p hp hk
    rw [hpo]
    have : (if p.key = sp.key then
        { p with caption := sp.caption, likes := sp.likes } else p) = p := if_neg hk
    rw [← this]
    exact List.mem_map_of_mem _ hp

/-- Witness for C5: refreshing an existing Post's metadata leaves its
PipelineState (with transcribe already done) untouched. -/
theorem scrape_refresh_preserves_state_witness :
    (applyScrapedPost
        ⟨[⟨⟨"tiktok", "p1"⟩, "inf", ["u"], "old", 3, 7⟩],
          [(⟨"tiktok", "p1"⟩, freshState)]⟩ "inf"
        ⟨⟨"tiktok", "p1"⟩, ["u"], "new", 9, 7⟩).states =
      [(⟨"tiktok", "p1"⟩, freshState)] :=
  (scrape_refresh_preserves_state
    ⟨[⟨⟨"tiktok", "p1"⟩, "inf", ["u"], "old", 3, 7⟩],
      [(⟨"tiktok", "p1"⟩, freshState)]⟩ "inf"
    ⟨⟨"tiktok", "p1"⟩, ["u"], "new", 9, 7⟩ (by decide)).1

end Infl

namespace Infl

/-! ### C7: low-confidence mentions retained and flagged -/

theorem alookup_setAssoc_self {α β : Type} [DecidableEq α] (k : α) (v : β) :
    ∀ l : List (α × β), alookup k (setAssoc k v l) = some v := by
  intro l
  induction l with
  | nil => simp [setAssoc, alookup]
  | cons kv rest ih =>
    by_cases hk : kv.1 = k
    · simp [setAssoc, hk, alookup]
    · simp [setAssoc, hk, alookup, ih]

/-- C7: whenever the extraction adapter returns a structurally valid mention
set, the Extract stage stores every mention (none are dropped): the stored
mention set is exactly the adapter's output flagged by the configured
threshold, each produced mention appears in it, the low-confidence flag is
set iff the confidence is strictly below the threshold (the fixed
inclusive/exclusive rule), and a mention exactly at the threshold is retained
unflagged. -/
theorem low_confidence_flagging (env : Adapters) (cfg : RunConfig)
    (cs : ContentStore) (rel : RelStore) (post : PostRecord) (ps : PipelineState)
    (ms : List RawMention)
    (hmiss : alookup post.key cs.mentionSets = none)
    (hok : env.extract (transcriptTextFor cs ps.download.outputHashes) post.caption 0
      = .ok ms)
    (hvalid : ms.all rawMentionValid = true) :
    alookup post.key (execStage env cfg cs rel post ps .extract).1.mentionSets =
        some (ms.map (flagMention cfg.threshold)) ∧
      (execStage env cfg cs rel post ps .extract).2.2.1.status = .done ∧
      ∀ m ∈ ms,
        flagMention cfg.threshold m ∈ ms.map (flagMention cfg.threshold) ∧
        (flagMention cfg.threshold m).lowConfidence =
          decide (m.confidence < cfg.threshold) ∧
        (m.confidence = cfg.threshold →
          (flagMention cfg.threshold m).lowConfidence = false) := by
  have horacle :
      (fun i => (env.extract (transcriptTextFor cs ps.download.outputHashes)
        post.caption i).bind validateMentions) 0 = .ok ms := by
    simp [hok, Except.bind, validateMentions, hvalid]
  have hr := callWithRetry_ok cfg.policy
    (fun i => (env.extract (transcriptTextFor cs ps.download.outputHashes)
      post.caption i).bind validateMentions) cfg.jitter ms horacle
  refine ⟨?_, ?_, ?_⟩
  · simp only [execStage, hmiss, hr]
    exact alookup_setAssoc_self _ _ _
  · simp only [execStage, hmiss, hr]
  · intro m hm
    refine ⟨List.mem_map_of_mem _ hm, rfl, ?_⟩
    intro he
    simp [flagMention, he]

/-- Witness for C7: a two-mention set, one strictly below and one exactly at
the threshold, is stored in full with only the first flagged. -/
theorem low_confidence_flagging_witness :
    alookup (⟨"tiktok", "p1"⟩ : PostKey)
        (execStage
          ⟨fun _ _ => .error .gone, fun _ _ => .error .gone, fun _ _ => .error .gone,
            fun _ _ _ => .ok
              [⟨"Lip Oil", "Dior", "makeup", "q1", 200000, none, none⟩,
               ⟨"Mascara", "Kiko", "makeup", "q2", 500000, none, none⟩]⟩
          ⟨⟨3, 10, 1000, 5⟩, fun _ => 0, 500000⟩
          ⟨[], [], [], [], []⟩ ⟨[], [], 0⟩
          ⟨⟨"tiktok", "p1"⟩, "inf", [], "cap", 0, 0⟩ freshState .extract).1.mentionSets =
      some
        [⟨"Lip Oil", "Dior", "makeup", "q1", 200000, true, none, none⟩,
         ⟨"Mascara", "Kiko", "makeup", "q2", 500000, false, none, none⟩] :=
  (low_confidence_flagging
    ⟨fun _ _ => .error .gone, fun _ _ => .error .gone, fun _ _ => .error .gone,
      fun _ _ _ => .ok
        [⟨"Lip Oil", "Dior", "makeup", "q1", 200000, none, none⟩,
         ⟨"Mascara", "Kiko", "makeup", "q2", 500000, none, none⟩]⟩
    ⟨⟨3, 10, 1000, 5⟩, fun _ => 0, 500000⟩
    ⟨[], [], [], [], []⟩ ⟨[], [], 0⟩
    ⟨⟨"tiktok", "p1"⟩, "inf", [], "cap", 0, 0⟩ freshState
    [⟨"Lip Oil", "Dior", "makeup", "q1", 200000, none, none⟩,
     ⟨"Mascara", "Kiko", "makeup", "q2", 500000, none, none⟩]
    (by decide) (by decide) (by decide)).1

end Infl

namespace Infl

/-! ### C3: byte-identical media gives one artifact and one transcript -/

theorem alookup_some_mem {α β : Type} [DecidableEq α] (k : α) (v : β) :
    ∀ l : List (α × β), alookup k l = some v → (k, v) ∈ l := by
  intro l
  induction l with
  | nil => intro h; simp [alookup] at h
  | cons kv rest ih =>
    intro h
    by_cases hk : kv.1 = k
    · simp [alookup, hk] at h
      exact List.mem_cons.mpr (Or.inl (by rw [← hk, ← h]))
    · simp [alookup, hk] at h
      exact List.mem_cons_of_mem _ (ih h)

theorem alookup_none_fst {α β : Type} [DecidableEq α] (k : α) :
    ∀ l : List (α × β), alookup k l = none → k ∉ l.map Prod.fst := by
  intro l
  induction l with
  | nil => intro _; simp
  | cons kv rest ih =>
    intro h
    by_cases hk : kv.1 = k
    · simp [alookup, hk] at h
    · simp [alookup, hk] at h
      simp only [List.map_cons, List.mem_cons]
      rintro (hx | hx)
      · exact hk hx.symm
      · exact ih h hx

theorem downloadOne_fresh (env : Adapters) (cfg : RunConfig) (cs : ContentStore)
    (u : Url) (b : Bytes) (hu : alookup u cs.urlIndex = none)
    (hf : env.fetch u 0 = .ok b) :
    ∃ arts, downloadOne env cfg cs u =
      ({ cs with urlIndex := (u, contentHash b) :: cs.urlIndex, artifacts := arts },
        .ok (contentHash b), 1) ∧
      ((arts = cs.artifacts ∧ ∃ v, alookup (contentHash b) cs.artifacts = some v) ∨
        (arts = (contentHash b, b) :: cs.artifacts ∧
          alookup (contentHash b) cs.artifacts = none)) := by
  have hr := callWithRetry_ok cfg.policy (env.fetch u) cfg.jitter b hf
  cases ha : alookup (contentHash b) cs.artifacts with
  | some v =>
    exact ⟨cs.artifacts,
      by simp only [contentHash] at ha; simp [downloadOne, hu, hr, ha, contentHash],
      Or.inl ⟨rfl, v, rfl⟩⟩
  | none =>
    exact ⟨(contentHash b, b) :: cs.artifacts,
      by simp only [contentHash] at ha; simp [downloadOne, hu, hr, ha, contentHash],
      Or.inr ⟨rfl, rfl⟩⟩

theorem transcribeOne_cached (env : Adapters) (cfg : RunConfig) (cs : ContentStore)
    (h : Hash) (t : Transcript) (hc : alookup h cs.transcripts = some t) :
    transcribeOne env cfg cs h = (cs, .ok (), 0) := by
  simp [transcribeOne, hc]

theorem transcribeOne_new (env : Adapters) (cfg : RunConfig) (cs : ContentStore)
    (h : Hash) (bts : Bytes) (t : Transcript)
    (hc : alookup h cs.transcripts = none)
    (ha : alookup h cs.artifacts = some bts) (hstt : env.stt bts 0 = .ok t) :
    transcribeOne env cfg cs h =
      ({ cs with transcripts := (h, t) :: cs.transcripts }, .ok (), 1) := by
  have hr := callWithRetry_ok cfg.policy (env.stt bts) cfg.jitter t hstt
  simp [transcribeOne, hc, ha, hr]

/-- The C3 scenario: download two media URLs (two Posts' media), then
transcribe the artifact with content hash `h` for each of the two Posts.
Returns the final content store and the number of external calls the second
transcription made. -/
def dedupScenario (env : Adapters) (cfg : RunConfig) (cs : ContentStore)
    (u1 u2 : Url) (h : Hash) : ContentStore × Nat :=
  let d1 := downloadOne env cfg cs u1
  let d2 := downloadOne env cfg d1.1 u2
  let t1 := transcribeOne env cfg d2.1 h
  let t2 := transcribeOne env cfg t1.1 h
  (t2.1, t2.2.2)

end Infl

namespace Infl

/-- C3: two Posts whose media downloads resolve to byte-identical content
leave exactly one MediaArtifact and exactly one Transcript keyed by that
content hash; both URLs are linked to the same artifact (the existing one is
linked, no second copy stored), and the second Post's transcription is a
cache hit making zero external calls. -/
theorem media_dedup_single_artifact_transcript (env : Adapters) (cfg : RunConfig)
    (cs : ContentStore) (u1 u2 : Url) (b : Bytes) (t : Transcript)
    (hnd1 : (cs.artifacts.map Prod.fst).Nodup)
    (hnd2 : (cs.transcripts.map Prod.fst).Nodup)
    (hu1 : alookup u1 cs.urlIndex = none) (hu2 : alookup u2 cs.urlIndex = none)
    (hne : u1 ≠ u2)
    (hf1 : env.fetch u1 0 = .ok b) (hf2 : env.fetch u2 0 = .ok b)
    (hstt : ∀ bts, env.stt bts 0 = .ok t) :
    (((dedupScenario env cfg cs u1 u2 (contentHash b)).1.artifacts.countP
        fun kv => decide (kv.1 = contentHash b)) = 1) ∧
      (((dedupScenario env cfg cs u1 u2 (contentHash b)).1.transcripts.countP
        fun kv => decide (kv.1 = contentHash b)) = 1) ∧
      alookup u1 (dedupScenario env cfg cs u1 u2 (contentHash b)).1.urlIndex =
        some (contentHash b) ∧
      alookup u2 (dedupScenario env cfg cs u1 u2 (contentHash b)).1.urlIndex =
        some (contentHash b) ∧
      (dedupScenario env cfg cs u1 u2 (contentHash b)).2 = 0 := by
  obtain ⟨a1, he1, hd1⟩ := downloadOne_fresh env cfg cs u1 b hu1 hf1
  have hu2' : alookup u2 ((u1, contentHash b) :: cs.urlIndex) = none := by
    simp [alookup, hne, hu2]
  have hart1 : ∃ v, alookup (contentHash b) a1 = some v := by
    rcases hd1 with ⟨ha, v, hv⟩ | ⟨ha, _⟩
    · exact ⟨v, by rw [ha]; exact hv⟩
    · exact ⟨b, by rw [ha]; simp [alookup]⟩
  have hnd1' : (a1.map Prod.fst).Nodup := by
    rcases hd1 with ⟨ha, _⟩ | ⟨ha, hnone⟩
    · rw [ha]; exact hnd1
    · rw [ha]
      simp only [List.map_cons, List.nodup_cons]
      exact ⟨alookup_none_fst _ _ hnone, hnd1⟩
  obtain ⟨a2, he2, hd2⟩ := downloadOne_fresh env cfg
    { cs with urlIndex := (u1, contentHash b) :: cs.urlIndex, artifacts := a1 }
    u2 b hu2' hf2
  have ha2 : a2 = a1 := by
    rcases hd2 with ⟨ha, _⟩ | ⟨ha, hnone⟩
    · exact ha
    · obtain ⟨v, hv⟩ := hart1
      rw [hv] at hnone
      exact absurd hnone (by simp)
  subst ha2
  obtain ⟨v1, hv1⟩ := hart1
  rcases hc : alookup (contentHash b) cs.transcripts with _ | tr0
  · have ht1 := transcribeOne_new env cfg
      { cs with
        urlIndex := (u2, contentHash b) :: (u1, contentHash b) :: cs.urlIndex,
        artifacts := a2 }
      (contentHash b) v1 t hc hv1 (hstt v1)
    have ht2 := transcribeOne_cached env cfg
      { cs with
        urlIndex := (u2, contentHash b) :: (u1, contentHash b) :: cs.urlIndex,
        artifacts := a2,
        transcripts := (contentHash b, t) :: cs.transcripts }
      (contentHash b) t (by simp [alookup])
    simp only [dedupScenario, he1, he2, ht1, ht2]
    refine ⟨?_, ?_, ?_, ?_, by trivial⟩
    · exact countP_key_eq_one Prod.fst (contentHash b) a2 hnd1'
        ⟨(contentHash b, v1), alookup_some_mem _ _ _ hv1, rfl⟩
    · apply countP_key_eq_one Prod.fst (contentHash b)
      · simp only [List.map_cons, List.nodup_cons]
        exact ⟨alookup_none_fst _ _ hc, hnd2⟩
      · exact ⟨(contentHash b, t), by simp, rfl⟩
    · simp [alookup, hne]
    · simp [alookup]
  · have ht1 := transcribeOne_cached env cfg
      { cs with
        urlIndex := (u2, contentHash b) :: (u1, contentHash b) :: cs.urlIndex,
        artifacts := a2 }
      (contentHash b) tr0 hc
    simp only [dedupScenario, he1, he2, ht1]
    refine ⟨?_, ?_, ?_, ?_, by trivial⟩
    · exact countP_key_eq_one Prod.fst (contentHash b) a2 hnd1'
        ⟨(contentHash b, v1), alookup_some_mem _ _ _ hv1, rfl⟩
    · exact countP_key_eq_one Prod.fst (contentHash b) cs.transcripts hnd2
        ⟨(contentHash b, tr0), alookup_some_mem _ _ _ hc, rfl⟩
    · simp [alookup, hne]
    · simp [alookup]

/-- Witness for C3: two distinct URLs resolving to the same bytes, starting
from the empty store. -/
theorem media_dedup_witness :
    (((dedupScenario
        ⟨fun _ _ => .error .gone, fun _ _ => .ok [1, 2, 3],
          fun _ _ => .ok ⟨"hello", "en", 900000⟩, fun _ _ _ => .error .gone⟩
        ⟨⟨3, 10, 1000, 5⟩, fun _ => 0, 500000⟩
        ⟨[], [], [], [], []⟩ "https://a" "https://b"
        (contentHash [1, 2, 3])).1.artifacts.countP
        fun kv => decide (kv.1 = contentHash [1, 2, 3])) = 1) ∧
      (((dedupScenario
        ⟨fun _ _ => .error .gone, fun _ _ => .ok [1, 2, 3],
          fun _ _ => .ok ⟨"hello", "en", 900000⟩, fun _ _ _ => .error .gone⟩
        ⟨⟨3, 10, 1000, 5⟩, fun _ => 0, 500000⟩
        ⟨[], [], [], [], []⟩ "https://a" "https://b"
        (contentHash [1, 2, 3])).1.transcripts.countP
        fun kv => decide (kv.1 = contentHash [1, 2, 3])) = 1) ∧
      alookup "https://a" (dedupScenario
        ⟨fun _ _ => .error .gone, fun _ _ => .ok [1, 2, 3],
          fun _ _ => .ok ⟨"hello", "en", 900000⟩, fun _ _ _ => .error .gone⟩
        ⟨⟨3, 10, 1000, 5⟩, fun _ => 0, 500000⟩
        ⟨[], [], [], [], []⟩ "https://a" "https://b"
        (contentHash [1, 2, 3])).1.urlIndex = some (contentHash [1, 2, 3]) ∧
      alookup "https://b" (dedupScenario
        ⟨fun _ _ => .error .gone, fun _ _ => .ok [1, 2, 3],
          fun _ _ => .ok ⟨"hello", "en", 900000⟩, fun _ _ _ => .error .gone⟩
        ⟨⟨3, 10, 1000, 5⟩, fun _ => 0, 500000⟩
        ⟨[], [], [], [], []⟩ "https://a" "https://b"
        (contentHash [1, 2, 3])).1.urlIndex = some (contentHash [1, 2, 3]) ∧
      (dedupScenario
        ⟨fun _ _ => .error .gone, fun _ _ => .ok [1, 2, 3],
          fun _ _ => .ok ⟨"hello", "en", 900000⟩, fun _ _ _ => .error .gone⟩
        ⟨⟨3, 10, 1000, 5⟩, fun _ => 0, 500000⟩
        ⟨[], [], [], [], []⟩ "https://a" "https://b"
        (contentHash [1, 2, 3])).2 = 0 :=
  media_dedup_single_artifact_transcript
    ⟨fun _ _ => .error .gone, fun _ _ => .ok [1, 2, 3],
      fun _ _ => .ok ⟨"hello", "en", 900000⟩, fun _ _ _ => .error .gone⟩
    ⟨⟨3, 10, 1000, 5⟩, fun _ => 0, 500000⟩
    ⟨[], [], [], [], []⟩ "https://a" "https://b" [1, 2, 3] ⟨"hello", "en", 900000⟩
    (by decide) (by decide) (by decide) (by decide) (by decide)
    rfl rfl (fun _ => rfl)

end Infl

namespace Infl

/-! ### C8: stages execute strictly in pipeline order within a Post -/

theorem runnable_of_nextStage (ps : PipelineState) (s : Stage)
    (h : nextStage ps = some s) : runnable ps s = true :=
  List.find?_some h

theorem pred_done_of_runnable (ps : PipelineState) (s p : Stage)
    (hr : runnable ps s = true) (hp : Stage.pred s = some p) :
    (stageState ps p).status = .done := by
  rw [runnable, Bool.and_eq_true] at hr
  obtain ⟨_, h2⟩ := hr
  rw [hp] at h2
  exact of_decide_eq_true h2

theorem runPostAux_succ_none (env : Adapters) (cfg : RunConfig) (post : PostRecord)
    (n : Nat) (cs : ContentStore) (rel : RelStore) (ps : PipelineState) (c : Calls)
    (tr : List (Stage × PipelineState)) (hn : nextStage ps = none) :
    runPostAux env cfg post (n + 1) cs rel ps c tr = ⟨cs, rel, ps, c, tr.reverse⟩ := by
  simp [runPostAux, hn]

theorem runPostAux_succ_some (env : Adapters) (cfg : RunConfig) (post : PostRecord)
    (n : Nat) (cs : ContentStore) (rel : RelStore) (ps : PipelineState) (c : Calls)
    (tr : List (Stage × PipelineState)) (s : Stage) (hn : nextStage ps = some s) :
    runPostAux env cfg post (n + 1) cs rel ps c tr =
      runPostAux env cfg post n (execStage env cfg cs rel post ps s).1
        (execStage env cfg cs rel post ps s).2.1
        (setStage ps s (execStage env cfg cs rel post ps s).2.2.1)
        (c.add (execStage env cfg cs rel post ps s).2.2.2) ((s, ps) :: tr) := by
  simp [runPostAux, hn]

theorem runPostAux_trace_inv (env : Adapters) (cfg : RunConfig) (post : PostRecord) :
    ∀ (fuel : Nat) (cs : ContentStore) (rel : RelStore) (ps : PipelineState)
      (c : Calls) (tr : List (Stage × PipelineState)),
      (∀ e ∈ tr, ∀ p, Stage.pred e.1 = some p → (stageState e.2 p).status = .done) →
      ∀ e ∈ (runPostAux env cfg post fuel cs rel ps c tr).trace,
        ∀ p, Stage.pred e.1 = some p → (stageState e.2 p).status = .done := by
  intro fuel
  induction fuel with
  | zero =>
    intro cs rel ps c tr hinv e he
    simp only [runPostAux, List.mem_reverse] at he
    exact hinv e he
  | succ n ih =>
    intro cs rel ps c tr hinv e he
    cases hn : nextStage ps with
    | none =>
      rw [runPostAux_succ_none env cfg post n cs rel ps c tr hn] at he
      simp only [List.mem_reverse] at he
      exact hinv e he
    | some s =>
      rw [runPostAux_succ_some env cfg post n cs rel ps c tr s hn] at he
      refine ih _ _ _ _ _ ?_ e he
      intro e' he' p hp
      rcases List.mem_cons.mp he' with he' | he'
      · subst he'
        exact pred_done_of_runnable ps s p (runnable_of_nextStage ps s hn) hp
      · exact hinv e' he' p hp

/-- C8: within a single Post, stages execute strictly in pipeline order — at
the moment any stage starts, its predecessor stage's recorded status for that
Post is `done` (the orchestrator only starts runnable stages).  Across
different Posts the model imposes no ordering. -/
theorem stage_order_within_post (env : Adapters) (cfg : RunConfig)
    (cs : ContentStore) (rel : RelStore) (post : PostRecord) (ps : PipelineState) :
    ∀ e ∈ (runPost env cfg cs rel post ps).trace, ∀ p, Stage.pred e.1 = some p →
      (stageState e.2 p).status = .done := by
  intro e he p hp
  exact runPostAux_trace_inv env cfg post 6 cs rel ps Calls.zero []
    (by intro e' he'; simp at he') e he p hp

/-- Witness for C8: in a concrete full run the Download stage starts with the
scrape stage recorded done. -/
theorem stage_order_within_post_witness :
    (stageState freshState Stage.scrape).status = .done :=
  stage_order_within_post
    ⟨fun _ _ => .ok [], fun _ _ => .ok [1], fun _ _ => .ok ⟨"t", "en", 900000⟩,
      fun _ _ _ => .ok []⟩
    ⟨⟨3, 10, 1000, 5⟩, fun _ => 0, 500000⟩
    ⟨[], [], [], [], []⟩ ⟨[], [], 0⟩
    ⟨⟨"tiktok", "p1"⟩, "inf", [], "cap", 0, 0⟩ freshState
    (Stage.download, freshState) (by decide) Stage.scrape rfl

end Infl

namespace Infl

/-! ### C6: transient errors retried with backoff then escalated; permanent
errors never retried and excluded from later stages -/

/-- C6: (1) an adapter call failing transiently on every attempt is retried
with the exponential-backoff-plus-jitter delay schedule up to the bounded
attempt count and then escalated; (2) a permanently classified error (e.g.
`gone`, the 404/410 case) is never retried — exactly one attempt, no delays;
(3) a Download whose retry-wrapped fetch fails marks the stage
`failedPermanent`; (4) a Post with `download = failedPermanent` has no
runnable stage: the orchestrator excludes it from all further stages. -/
theorem retry_and_failure_classification (p : RetryPolicy) (jitter : Nat → Nat) :
    (∀ (α : Type) (oracle : Nat → Except AdapterError α) (err : Nat → AdapterError),
      1 ≤ p.maxAttempts →
      (∀ j, j < p.maxAttempts → oracle j = .error (err j) ∧ (err j).isTransient = true) →
      callWithRetry p oracle jitter =
        ⟨.error (.exhausted (err (p.maxAttempts - 1))), p.maxAttempts,
          (List.range (p.maxAttempts - 1)).map fun j => backoffDelay p j (jitter j)⟩) ∧
    (∀ (α : Type) (oracle : Nat → Except AdapterError α) (e : AdapterError),
      oracle 0 = .error e → e.isTransient = false →
      callWithRetry p oracle jitter = ⟨.error (.permanentFail e), 1, []⟩) ∧
    (∀ (env : Adapters) (cfg : RunConfig) (cs : ContentStore) (rel : RelStore)
      (post : PostRecord) (ps : PipelineState) (u : Url) (f : CallFail),
      post.mediaUrls = [u] → alookup u cs.urlIndex = none →
      (callWithRetry cfg.policy (env.fetch u) cfg.jitter).outcome = .error f →
      (execStage env cfg cs rel post ps .download).2.2.1.status = .failedPermanent) ∧
    (∀ ps : PipelineState,
      ps.scrape.status = .done → ps.download.status = .failedPermanent →
      ps.transcribe.status = .pending → ps.extract.status = .pending →
      ps.load.status = .pending →
      nextStage ps = none ∧
      ∀ (env : Adapters) (cfg : RunConfig) (cs : ContentStore) (rel : RelStore)
        (post : PostRecord),
        runPost env cfg cs rel post ps = ⟨cs, rel, ps, Calls.zero, []⟩) := by
  refine ⟨?_, ?_, ?_, ?_⟩
  · intro α oracle err hmax h
    exact callWithRetry_exhausted p oracle jitter err hmax h
  · intro α oracle e h hp
    exact callWithRetry_permanent p oracle jitter e h hp
  · intro env cfg cs rel post ps u f hurls hu hout
    simp only [execStage, hurls, downloadAll, downloadOne, hu, hout]
  · intro ps h1 h2 h3 h4 h5
    have hns : nextStage ps = none := by
      simp [nextStage, Stage.stages, List.find?, runnable, stageState, Stage.pred,
        h1, h2, h3, h4, h5]
    refine ⟨hns, ?_⟩
    intro env cfg cs rel post
    rw [runPost, runPostAux_succ_none env cfg post 5 cs rel ps Calls.zero [] hns]
    rfl

/-- Witness for C6 at a concrete policy: a `gone` (404/410) download error is
permanent after exactly one attempt with no backoff delays. -/
theorem retry_and_failure_classification_witness :
    callWithRetry ⟨3, 10, 1000, 5⟩ (fun _ => (.error .gone : Except AdapterError Bytes))
        (fun _ => 0) = ⟨.error (.permanentFail .gone), 1, []⟩ :=
  (retry_and_failure_classification ⟨3, 10, 1000, 5⟩ (fun _ => 0)).2.1 Bytes
    (fun _ => .error .gone) .gone rfl rfl

end Infl

namespace Infl

/-! ### C4: resume after crash — Download is not repeated -/

theorem alookup_cons_isSome {α β : Type} [DecidableEq α] (k k' : α) (v : β)
    (l : List (α × β)) (h : (alookup k l).isSome) :
    (alookup k ((k', v) :: l)).isSome := by
  by_cases hk : k' = k <;> simp [alookup, hk, h]

theorem transcribeAll_ok (env : Adapters) (cfg : RunConfig) (tf : Bytes → Transcript)
    (hstt : ∀ bts i, env.stt bts i = .ok (tf bts)) :
    ∀ (hs : List Hash) (cs : ContentStore),
      (∀ h ∈ hs, (alookup h cs.transcripts).isSome ∨ (alookup h cs.artifacts).isSome) →
      ∃ cs' n, transcribeAll env cfg cs hs = (cs', .ok (), n) ∧
        cs'.artifacts = cs.artifacts ∧ cs'.urlIndex = cs.urlIndex ∧
        cs'.scrapeCache = cs.scrapeCache ∧ cs'.mentionSets = cs.mentionSets ∧
        ∀ h, (alookup h cs.transcripts).isSome → (alookup h cs'.transcripts).isSome := by
  intro hs
  induction hs with
  | nil =>
    intro cs _
    exact ⟨cs, 0, rfl, rfl, rfl, rfl, rfl, fun _ h => h⟩
  | cons h0 rest ih =>
    intro cs hcond
    rcases hc : alookup h0 cs.transcripts with _ | t0
    · have := hcond h0 (List.mem_cons_self h0 rest)
      rw [hc] at this
      rcases this with habs | hart
      · simp at habs
      · rcases ha : alookup h0 cs.artifacts with _ | bts
        · rw [ha] at hart; simp at hart
        · have ht1 := transcribeOne_new env cfg cs h0 bts (tf bts) hc ha (hstt bts 0)
          obtain ⟨cs', n, hta, hA, hU, hS, hM, hT⟩ := ih
            { cs with transcripts := (h0, tf bts) :: cs.transcripts }
            (by
              intro h hm
              rcases hcond h (List.mem_cons_of_mem h0 hm) with hh | hh
              · exact Or.inl (alookup_cons_isSome h h0 (tf bts) cs.transcripts hh)
              · exact Or.inr hh)
          refine ⟨cs', n + 1, ?_, hA, hU, hS, hM, ?_⟩
          · simp [transcribeAll, ht1, hta]
            omega
          · intro h hh
            exact hT h (alookup_cons_isSome h h0 (tf bts) cs.transcripts hh)
    · have ht1 := transcribeOne_cached env cfg cs h0 t0 hc
      obtain ⟨cs', n, hta, hA, hU, hS, hM, hT⟩ :=
        ih cs fun h hm => hcond h (List.mem_cons_of_mem h0 hm)
      exact ⟨cs', n, by simp [transcribeAll, ht1, hta], hA, hU, hS, hM, hT⟩

end Infl

namespace Infl

/-- C4: for a Post whose persisted PipelineState records Download done and
Transcribe/Extract/Load pending (a run interrupted after Download), the next
invocation — driven purely by that PipelineState — starts exactly the three
remaining stages in order, makes zero download (and scrape) calls, leaves the
Download stage record untouched, and finishes with every stage done. -/
theorem resume_skips_done_download (env : Adapters) (cfg : RunConfig)
    (cs : ContentStore) (rel : RelStore) (post : PostRecord) (ps : PipelineState)
    (tf : Bytes → Transcript)
    (hsc : ps.scrape.status = .done)
    (hdl : ps.download.status = .done)
    (htr : ps.transcribe.status = .pending)
    (hex : ps.extract.status = .pending)
    (hld : ps.load.status = .pending)
    (hart : ∀ h ∈ ps.download.outputHashes,
      (alookup h cs.transcripts).isSome ∨ (alookup h cs.artifacts).isSome)
    (hstt : ∀ bts i, env.stt bts i = .ok (tf bts))
    (hextract : ∀ t c i, ∃ ms, env.extract t c i = .ok ms ∧
      ms.all rawMentionValid = true) :
    (runPost env cfg cs rel post ps).trace.map Prod.fst =
        [Stage.transcribe, Stage.extract, Stage.load] ∧
      (runPost env cfg cs rel post ps).calls.download = 0 ∧
      (runPost env cfg cs rel post ps).calls.scrape = 0 ∧
      (runPost env cfg cs rel post ps).ps.download = ps.download ∧
      allDoneB (runPost env cfg cs rel post ps).ps = true := by
  have hn1 : nextStage ps = some Stage.transcribe := by
    simp [nextStage, Stage.stages, List.find?, runnable, stageState, Stage.pred,
      hsc, hdl, htr, hex, hld]
  obtain ⟨cs1, n1, hta, hA, hU, hS, hM, hT⟩ :=
    transcribeAll_ok env cfg tf hstt ps.download.outputHashes cs hart
  have hexec1 : execStage env cfg cs rel post ps Stage.transcribe =
      (cs1, rel, ⟨.done, ps.download.outputHashes, n1⟩,
        { Calls.zero with transcribe := n1 }) := by
    simp only [execStage, hta]
  have hn2 : nextStage (setStage ps Stage.transcribe
      ⟨.done, ps.download.outputHashes, n1⟩) = some Stage.extract := by
    simp [nextStage, Stage.stages, List.find?, runnable, stageState, setStage,
      Stage.pred, hsc, hdl, hex, hld]
  rcases hms : alookup post.key cs1.mentionSets with _ | mset
  · obtain ⟨ms, hok, hval⟩ :=
      hextract (transcriptTextFor cs1 ps.download.outputHashes) post.caption 0
    have hcw := callWithRetry_ok cfg.policy
      (fun i => (env.extract (transcriptTextFor cs1 ps.download.outputHashes)
        post.caption i).bind validateMentions) cfg.jitter ms
      (by simp [hok, Except.bind, validateMentions, hval])
    have hexec2 : execStage env cfg cs1 rel post
        (setStage ps Stage.transcribe ⟨.done, ps.download.outputHashes, n1⟩)
        Stage.extract =
        ({ cs1 with
            mentionSets := setAssoc post.key
              (ms.map (flagMention cfg.threshold)) cs1.mentionSets },
          rel, ⟨.done, [], 1⟩, { Calls.zero with extract := 1 }) := by
      simp only [execStage, setStage, hms, hcw]
    have hn3 : nextStage (setStage
        (setStage ps Stage.transcribe ⟨.done, ps.download.outputHashes, n1⟩)
        Stage.extract ⟨.done, [], 1⟩) = some Stage.load := by
      simp [nextStage, Stage.stages, List.find?, runnable, stageState, setStage,
        Stage.pred, hsc, hdl, hld]
    have hn4 : nextStage (setStage (setStage
        (setStage ps Stage.transcribe ⟨.done, ps.download.outputHashes, n1⟩)
        Stage.extract ⟨.done, [], 1⟩) Stage.load ⟨.done, [], 0⟩) = none := by
      simp [nextStage, Stage.stages, List.find?, runnable, stageState, setStage,
        Stage.pred, hsc, hdl]
    rw [runPost,
      runPostAux_succ_some env cfg post 5 cs rel ps Calls.zero [] Stage.transcribe hn1]
    simp only [hexec1]
    rw [runPostAux_succ_some env cfg post 4 _ _ _ _ _ Stage.extract hn2]
    simp only [hexec2]
    rw [runPostAux_succ_some env cfg post 3 _ _ _ _ _ Stage.load hn3]
    simp only [execStage]
    rw [runPostAux_succ_none env cfg post 2 _ _ _ _ _ hn4]
    simp [setStage, stageState, allDoneB, Calls.add, Calls.zero, hsc, hdl]
  · have hexec2 : execStage env cfg cs1 rel post
        (setStage ps Stage.transcribe ⟨.done, ps.download.outputHashes, n1⟩)
        Stage.extract = (cs1, rel, ⟨.done, [], 0⟩, Calls.zero) := by
      simp only [execStage, setStage, hms]
    have hn3 : nextStage (setStage
        (setStage ps Stage.transcribe ⟨.done, ps.download.outputHashes, n1⟩)
        Stage.extract ⟨.done, [], 0⟩) = some Stage.load := by
      simp [nextStage, Stage.stages, List.find?, runnable, stageState, setStage,
        Stage.pred, hsc, hdl, hld]
    have hn4 : nextStage (setStage (setStage
        (setStage ps Stage.transcribe ⟨.done, ps.download.outputHashes, n1⟩)
        Stage.extract ⟨.done, [], 0⟩) Stage.load ⟨.done, [], 0⟩) = none := by
      simp [nextStage, Stage.stages, List.find?, runnable, stageState, setStage,
        Stage.pred, hsc, hdl]
    rw [runPost,
      runPostAux_succ_some env cfg post 5 cs rel ps Calls.zero [] Stage.transcribe hn1]
    simp only [hexec1]
    rw [runPostAux_succ_some env cfg post 4 _ _ _ _ _ Stage.extract hn2]
    simp only [hexec2]
    rw [runPostAux_succ_some env cfg post 3 _ _ _ _ _ Stage.load hn3]
    simp only [execStage]
    rw [runPostAux_succ_none env cfg post 2 _ _ _ _ _ hn4]
    simp [setStage, stageState, allDoneB, Calls.add, Calls.zero, hsc, hdl]

end Infl

namespace Infl

/-- Witness for C4: a Post interrupted right after Download (stage record
done with two retries) completes transcribe/extract/load only. -/
theorem resume_skips_done_download_witness :
    (runPost
        ⟨fun _ _ => .error .gone, fun _ _ => .error .gone,
          fun _ _ => .ok ⟨"t", "en", 900000⟩, fun _ _ _ => .ok []⟩
        ⟨⟨3, 10, 1000, 5⟩, fun _ => 0, 500000⟩
        ⟨[], [], [], [], []⟩ ⟨[], [], 0⟩
        ⟨⟨"tiktok", "p1"⟩, "inf", ["u"], "cap", 0, 0⟩
        ⟨⟨.done, [], 0⟩, ⟨.done, [], 2⟩, ⟨.pending, [], 0⟩, ⟨.pending, [], 0⟩,
          ⟨.pending, [], 0⟩⟩).trace.map Prod.fst =
        [Stage.transcribe, Stage.extract, Stage.load] ∧
      (runPost
        ⟨fun _ _ => .error .gone, fun _ _ => .error .gone,
          fun _ _ => .ok ⟨"t", "en", 900000⟩, fun _ _ _ => .ok []⟩
        ⟨⟨3, 10, 1000, 5⟩, fun _ => 0, 500000⟩
        ⟨[], [], [], [], []⟩ ⟨[], [], 0⟩
        ⟨⟨"tiktok", "p1"⟩, "inf", ["u"], "cap", 0, 0⟩
        ⟨⟨.done, [], 0⟩, ⟨.done, [], 2⟩, ⟨.pending, [], 0⟩, ⟨.pending, [], 0⟩,
          ⟨.pending, [], 0⟩⟩).calls.download = 0 ∧
      (runPost
        ⟨fun _ _ => .error .gone, fun _ _ => .error .gone,
          fun _ _ => .ok ⟨"t", "en", 900000⟩, fun _ _ _ => .ok []⟩
        ⟨⟨3, 10, 1000, 5⟩, fun _ => 0, 500000⟩
        ⟨[], [], [], [], []⟩ ⟨[], [], 0⟩
        ⟨⟨"tiktok", "p1"⟩, "inf", ["u"], "cap", 0, 0⟩
        ⟨⟨.done, [], 0⟩, ⟨.done, [], 2⟩, ⟨.pending, [], 0⟩, ⟨.pending, [], 0⟩,
          ⟨.pending, [], 0⟩⟩).calls.scrape = 0 ∧
      (runPost
        ⟨fun _ _ => .error .gone, fun _ _ => .error .gone,
          fun _ _ => .ok ⟨"t", "en", 900000⟩, fun _ _ _ => .ok []⟩
        ⟨⟨3, 10, 1000, 5⟩, fun _ => 0, 500000⟩
        ⟨[], [], [], [], []⟩ ⟨[], [], 0⟩
        ⟨⟨"tiktok", "p1"⟩, "inf", ["u"], "cap", 0, 0⟩
        ⟨⟨.done, [], 0⟩, ⟨.done, [], 2⟩, ⟨.pending, [], 0⟩, ⟨.pending, [], 0⟩,
          ⟨.pending, [], 0⟩⟩).ps.download = ⟨.done, [], 2⟩ ∧
      allDoneB (runPost
        ⟨fun _ _ => .error .gone, fun _ _ => .error .gone,
          fun _ _ => .ok ⟨"t", "en", 900000⟩, fun _ _ _ => .ok []⟩
        ⟨⟨3, 10, 1000, 5⟩, fun _ => 0, 500000⟩
        ⟨[], [], [], [], []⟩ ⟨[], [], 0⟩
        ⟨⟨"tiktok", "p1"⟩, "inf", ["u"], "cap", 0, 0⟩
        ⟨⟨.done, [], 0⟩, ⟨.done, [], 2⟩, ⟨.pending, [], 0⟩, ⟨.pending, [], 0⟩,
          ⟨.pending, [], 0⟩⟩).ps = true :=
  resume_skips_done_download
    ⟨fun _ _ => .error .gone, fun _ _ => .error .gone,
      fun _ _ => .ok ⟨"t", "en", 900000⟩, fun _ _ _ => .ok []⟩
    ⟨⟨3, 10, 1000, 5⟩, fun _ => 0, 500000⟩
    ⟨[], [], [], [], []⟩ ⟨[], [], 0⟩
    ⟨⟨"tiktok", "p1"⟩, "inf", ["u"], "cap", 0, 0⟩
    ⟨⟨.done, [], 0⟩, ⟨.done, [], 2⟩, ⟨.pending, [], 0⟩, ⟨.pending, [], 0⟩,
      ⟨.pending, [], 0⟩⟩
    (fun _ => ⟨"t", "en", 900000⟩) rfl rfl rfl rfl rfl
    (fun h hm => absurd hm (List.not_mem_nil h))
    (fun _ _ => rfl) (fun _ _ _ => ⟨[], rfl, rfl⟩)

end Infl

namespace Infl

/-! ### C1: second full run — zero external calls, store unchanged -/

theorem allDone_nextStage_none (ps : PipelineState) (h : allDoneB ps = true) :
    nextStage ps = none := by
  rw [allDoneB] at h
  simp only [Bool.and_eq_true, decide_eq_true_eq] at h
  obtain ⟨⟨⟨⟨h1, h2⟩, h3⟩, h4⟩, h5⟩ := h
  simp [nextStage, Stage.stages, List.find?, runnable, stageState, Stage.pred,
    h1, h2, h3, h4, h5]

theorem runPost_allDone (env : Adapters) (cfg : RunConfig) (cs : ContentStore)
    (rel : RelStore) (post : PostRecord) (ps : PipelineState)
    (h : allDoneB ps = true) :
    runPost env cfg cs rel post ps = ⟨cs, rel, ps, Calls.zero, []⟩ := by
  rw [runPost, runPostAux_succ_none env cfg post 5 cs rel ps Calls.zero []
    (allDone_nextStage_none ps h)]
  rfl

theorem runPostFor_done (env : Adapters) (cfg : RunConfig) (w : World) (k : PostKey)
    (h : ∀ ps, alookup k w.db.states = some ps → allDoneB ps = true) :
    runPostFor env cfg w k = (w, Calls.zero) := by
  rcases hf : w.db.posts.find? fun p => decide (p.key = k) with _ | post <;>
    rcases ha : alookup k w.db.states with _ | ps
  · simp [runPostFor, hf, ha]
  · simp [runPostFor, hf, ha]
  · simp [runPostFor, hf, ha]
  · have hd := h ps ha
    simp only [runPostFor, hf, ha,
      runPost_allDone env cfg w.cs w.rel post ps hd]
    rw [setAssoc_eq_self k ps w.db.states ha]

theorem any_key_of_frozen_eq (l l' : List PostRecord)
    (hf : l.map frozen = l'.map frozen) (k : PostKey) :
    (l.any fun p => decide (p.key = k)) = (l'.any fun p => decide (p.key = k)) := by
  have h1 : ∀ m : List PostRecord,
      ((m.map frozen).any fun t => decide (t.1 = k)) =
        (m.any fun p => decide (p.key = k)) := by
    intro m
    induction m with
    | nil => rfl
    | cons p rest ih => simp only [List.map_cons, List.any_cons, ih]; rfl
  rw [← h1 l, ← h1 l', hf]

theorem applyScraped_refresh (inf : String) :
    ∀ (sps : List ScrapedPost) (db : PipeDB),
      (∀ sp ∈ sps, (db.posts.any fun p => decide (p.key = sp.key)) = true) →
      (applyScraped db inf sps).states = db.states ∧
        (applyScraped db inf sps).posts.map frozen = db.posts.map frozen := by
  intro sps
  induction sps with
  | nil => intro db _; exact ⟨rfl, rfl⟩
  | cons sp rest ih =>
    intro db hmem
    obtain ⟨hst, hpo⟩ :=
      applyScrapedPost_existing db inf sp (hmem sp (List.mem_cons_self sp rest))
    have hfr : (applyScrapedPost db inf sp).posts.map frozen =
        db.posts.map frozen := by
      rw [hpo]
      exact refreshed_frozen sp db.posts
    have hstep : applyScraped db inf (sp :: rest) =
        applyScraped (applyScrapedPost db inf sp) inf rest := rfl
    have hrest := ih (applyScrapedPost db inf sp) (by
      intro sp' hm
      rw [any_key_of_frozen_eq _ db.posts hfr sp'.key]
      exact hmem sp' (List.mem_cons_of_mem sp hm))
    rw [hstep]
    exact ⟨hrest.1.trans hst, hrest.2.trans hfr⟩

theorem Calls.add_zero (c : Calls) : c.add Calls.zero = c := by
  simp [Calls.add, Calls.zero]

theorem fold_runPostFor_noop (env : Adapters) (cfg : RunConfig) :
    ∀ (keys : List PostKey) (w : World) (c : Calls),
      (∀ k ∈ keys, runPostFor env cfg w k = (w, Calls.zero)) →
      keys.foldl (fun wc k =>
        match runPostFor env cfg wc.1 k with
        | (w2, c2) => (w2, wc.2.add c2)) (w, c) = (w, c) := by
  intro keys
  induction keys with
  | nil => intro w c _; rfl
  | cons k rest ih =>
    intro w c hnoop
    have h0 := hnoop k (List.mem_cons_self k rest)
    simp only [List.foldl_cons, h0, Calls.add_zero]
    exact ih w c fun k' hk' => hnoop k' (List.mem_cons_of_mem k hk')

/-- Two worlds agreeing on everything except mutable Post metadata. -/
def sameFrame (w w' : World) : Prop :=
  w'.cs = w.cs ∧ w'.rel = w.rel ∧ w'.db.states = w.db.states ∧
    w'.db.posts.map frozen = w.db.posts.map frozen

theorem sameFrame_refl (w : World) : sameFrame w w := ⟨rfl, rfl, rfl, rfl⟩

theorem sameFrame_trans {w w' w'' : World} (h1 : sameFrame w w')
    (h2 : sameFrame w' w'') : sameFrame w w'' :=
  ⟨h2.1.trans h1.1, h2.2.1.trans h1.2.1, h2.2.2.1.trans h1.2.2.1,
    h2.2.2.2.trans h1.2.2.2⟩

theorem postDoneB_of_sameFrame (w w' : World) (hs : sameFrame w w')
    (sp : ScrapedPost) : postDoneB w' sp = postDoneB w sp := by
  obtain ⟨hcs, hrel, hst, hfr⟩ := hs
  rw [postDoneB, postDoneB, hst,
    any_key_of_frozen_eq w'.db.posts w.db.posts hfr sp.key]

theorem runInfluencer_noop (env : Adapters) (cfg : RunConfig) (w : World)
    (handle : String) (sps : List ScrapedPost)
    (hc : alookup handle w.cs.scrapeCache = some sps)
    (hdone : sps.all (postDoneB w) = true) :
    (runInfluencer env cfg w handle).2 = Calls.zero ∧
      sameFrame w (runInfluencer env cfg w handle).1 := by
  have hallmem : ∀ sp ∈ sps,
      (w.db.posts.any fun p => decide (p.key = sp.key)) = true := by
    intro sp hm
    have hd := List.all_eq_true.mp hdone sp hm
    rw [postDoneB, Bool.and_eq_true] at hd
    exact hd.1
  obtain ⟨hst, hfr⟩ := applyScraped_refresh handle sps w.db hallmem
  have hnoop : ∀ k ∈ sps.map ScrapedPost.key,
      runPostFor env cfg { w with db := applyScraped w.db handle sps } k =
        ({ w with db := applyScraped w.db handle sps }, Calls.zero) := by
    intro k hk
    obtain ⟨sp, hsp, rfl⟩ := List.mem_map.mp hk
    apply runPostFor_done
    intro ps hps
    have hd := List.all_eq_true.mp hdone sp hsp
    rw [postDoneB, Bool.and_eq_true] at hd
    have hd2 := hd.2
    have hps' : alookup sp.key w.db.states = some ps := by
      rw [← hst]
      exact hps
    rw [hps'] at hd2
    exact hd2
  have hrun : runInfluencer env cfg w handle =
      ({ w with db := applyScraped w.db handle sps }, Calls.zero) := by
    rw [runInfluencer]
    simp only [scrapePhase, hc]
    exact fold_runPostFor_noop env cfg (sps.map ScrapedPost.key)
      { w with db := applyScraped w.db handle sps } Calls.zero hnoop
  rw [hrun]
  exact ⟨rfl, rfl, rfl, hst, hfr⟩

theorem runPipeline_fold_noop (env : Adapters) (cfg : RunConfig) (w : World) :
    ∀ (hl : List String) (w' : World) (c : Calls),
      sameFrame w w' → fullyProcessedB w hl = true →
      (hl.foldl (fun wc h =>
          match runInfluencer env cfg wc.1 h with
          | (w2, c2) => (w2, wc.2.add c2)) (w', c)).2 = c ∧
        sameFrame w (hl.foldl (fun wc h =>
          match runInfluencer env cfg wc.1 h with
          | (w2, c2) => (w2, wc.2.add c2)) (w', c)).1 := by
  intro hl
  induction hl with
  | nil => intro w' c hsf _; exact ⟨rfl, hsf⟩
  | cons h0 rest ih =>
    intro w' c hsf hfp
    rw [fullyProcessedB, List.all_cons, Bool.and_eq_true] at hfp
    obtain ⟨hh, hrest⟩ := hfp
    rcases hcc : alookup h0 w.cs.scrapeCache with _ | sps
    · rw [hcc] at hh
      simp at hh
    · rw [hcc] at hh
      have hc' : alookup h0 w'.cs.scrapeCache = some sps := by
        rw [hsf.1, hcc]
      have hdone' : sps.all (postDoneB w') = true := by
        rw [List.all_eq_true] at hh ⊢
        intro sp hsp
        rw [postDoneB_of_sameFrame w w' hsf sp]
        exact hh sp hsp
      obtain ⟨hz, hsf2⟩ := runInfluencer_noop env cfg w' h0 sps hc' hdone'
      rcases hri : runInfluencer env cfg w' h0 with ⟨w2, c2⟩
      rw [hri] at hz hsf2
      simp only [List.foldl_cons, hri]
      rw [show ((w2, c2) : World × Calls).2 = c2 from rfl] at hz
      rw [show ((w2, c2) : World × Calls).1 = w2 from rfl] at hsf2
      rw [hz, Calls.add_zero]
      exact ih w2 c (sameFrame_trans hsf hsf2) hrest

/-- C1: running the full pipeline on a target set whose scrapes are all
cached and whose Posts are all fully processed (the second run, with no new
content) makes zero external-service calls of any kind, leaves the content
store, the relational store and every PipelineState exactly unchanged, and
touches Posts only in their mutable metadata. -/
theorem pipeline_second_run_idempotent (env : Adapters) (cfg : RunConfig)
    (w : World) (handles : List String)
    (h : fullyProcessedB w handles = true) :
    (runPipeline env cfg w handles).2 = Calls.zero ∧
      (runPipeline env cfg w handles).1.cs = w.cs ∧
      (runPipeline env cfg w handles).1.rel = w.rel ∧
      (runPipeline env cfg w handles).1.db.states = w.db.states ∧
      (runPipeline env cfg w handles).1.db.posts.map frozen =
        w.db.posts.map frozen := by
  obtain ⟨hz, hsf⟩ := runPipeline_fold_noop env cfg w handles w Calls.zero
    (sameFrame_refl w) h
  exact ⟨hz, hsf.1, hsf.2.1, hsf.2.2.1, hsf.2.2.2⟩

end Infl

namespace Infl

/-- Witness for C1: a world with one influencer whose scrape is cached and
whose single Post is fully processed; a re-run makes zero calls and changes
nothing but (possibly) Post metadata. -/
theorem pipeline_second_run_idempotent_witness :
    (runPipeline
        ⟨fun _ _ => .error .gone, fun _ _ => .error .gone, fun _ _ => .error .gone,
          fun _ _ _ => .error .gone⟩
        ⟨⟨3, 10, 1000, 5⟩, fun _ => 0, 500000⟩
        ⟨⟨[("glam", [⟨⟨"tiktok", "p1"⟩, ["u"], "cap", 3, 7⟩])], [], [], [], []⟩,
          ⟨[⟨⟨"tiktok", "p1"⟩, "glam", ["u"], "old", 1, 7⟩],
            [(⟨"tiktok", "p1"⟩, ⟨⟨.done, [], 0⟩, ⟨.done, [], 1⟩, ⟨.done, [], 0⟩,
              ⟨.done, [], 0⟩, ⟨.done, [], 0⟩⟩)]⟩, ⟨[], [], 0⟩⟩
        ["glam"]).2 = Calls.zero ∧
      (runPipeline
        ⟨fun _ _ => .error .gone, fun _ _ => .error .gone, fun _ _ => .error .gone,
          fun _ _ _ => .error .gone⟩
        ⟨⟨3, 10, 1000, 5⟩, fun _ => 0, 500000⟩
        ⟨⟨[("glam", [⟨⟨"tiktok", "p1"⟩, ["u"], "cap", 3, 7⟩])], [], [], [], []⟩,
          ⟨[⟨⟨"tiktok", "p1"⟩, "glam", ["u"], "old", 1, 7⟩],
            [(⟨"tiktok", "p1"⟩, ⟨⟨.done, [], 0⟩, ⟨.done, [], 1⟩, ⟨.done, [], 0⟩,
              ⟨.done, [], 0⟩, ⟨.done, [], 0⟩⟩)]⟩, ⟨[], [], 0⟩⟩
        ["glam"]).1.cs =
        ⟨[("glam", [⟨⟨"tiktok", "p1"⟩, ["u"], "cap", 3, 7⟩])], [], [], [], []⟩ ∧
      (runPipeline
        ⟨fun _ _ => .error .gone, fun _ _ => .error .gone, fun _ _ => .error .gone,
          fun _ _ _ => .error .gone⟩
        ⟨⟨3, 10, 1000, 5⟩, fun _ => 0, 500000⟩
        ⟨⟨[("glam", [⟨⟨"tiktok", "p1"⟩, ["u"], "cap", 3, 7⟩])], [], [], [], []⟩,
          ⟨[⟨⟨"tiktok", "p1"⟩, "glam", ["u"], "old", 1, 7⟩],
            [(⟨"tiktok", "p1"⟩, ⟨⟨.done, [], 0⟩, ⟨.done, [], 1⟩, ⟨.done, [], 0⟩,
              ⟨.done, [], 0⟩, ⟨.done, [], 0⟩⟩)]⟩, ⟨[], [], 0⟩⟩
        ["glam"]).1.rel = ⟨[], [], 0⟩ ∧
      (runPipeline
        ⟨fun _ _ => .error .gone, fun _ _ => .error .gone, fun _ _ => .error .gone,
          fun _ _ _ => .error .gone⟩
        ⟨⟨3, 10, 1000, 5⟩, fun _ => 0, 500000⟩
        ⟨⟨[("glam", [⟨⟨"tiktok", "p1"⟩, ["u"], "cap", 3, 7⟩])], [], [], [], []⟩,
          ⟨[⟨⟨"tiktok", "p1"⟩, "glam", ["u"], "old", 1, 7⟩],
            [(⟨"tiktok", "p1"⟩, ⟨⟨.done, [], 0⟩, ⟨.done, [], 1⟩, ⟨.done, [], 0⟩,
              ⟨.done, [], 0⟩, ⟨.done, [], 0⟩⟩)]⟩, ⟨[], [], 0⟩⟩
        ["glam"]).1.db.states =
        [(⟨"tiktok", "p1"⟩, ⟨⟨.done, [], 0⟩, ⟨.done, [], 1⟩, ⟨.done, [], 0⟩,
          ⟨.done, [], 0⟩, ⟨.done, [], 0⟩⟩)] ∧
      (runPipeline
        ⟨fun _ _ => .error .gone, fun _ _ => .error .gone, fun _ _ => .error .gone,
          fun _ _ _ => .error .gone⟩
        ⟨⟨3, 10, 1000, 5⟩, fun _ => 0, 500000⟩
        ⟨⟨[("glam", [⟨⟨"tiktok", "p1"⟩, ["u"], "cap", 3, 7⟩])], [], [], [], []⟩,
          ⟨[⟨⟨"tiktok", "p1"⟩, "glam", ["u"], "old", 1, 7⟩],
            [(⟨"tiktok", "p1"⟩, ⟨⟨.done, [], 0⟩, ⟨.done, [], 1⟩, ⟨.done, [], 0⟩,
              ⟨.done, [], 0⟩, ⟨.done, [], 0⟩⟩)]⟩, ⟨[], [], 0⟩⟩
        ["glam"]).1.db.posts.map frozen =
        [⟨⟨"tiktok", "p1"⟩, "glam", ["u"], "old", 1, 7⟩].map frozen :=
  pipeline_second_run_idempotent
    ⟨fun _ _ => .error .gone, fun _ _ => .error .gone, fun _ _ => .error .gone,
      fun _ _ _ => .error .gone⟩
    ⟨⟨3, 10, 1000, 5⟩, fun _ => 0, 500000⟩
    ⟨⟨[("glam", [⟨⟨"tiktok", "p1"⟩, ["u"], "cap", 3, 7⟩])], [], [], [], []⟩,
      ⟨[⟨⟨"tiktok", "p1"⟩, "glam", ["u"], "old", 1, 7⟩],
        [(⟨"tiktok", "p1"⟩, ⟨⟨.done, [], 0⟩, ⟨.done, [], 1⟩, ⟨.done, [], 0⟩,
          ⟨.done, [], 0⟩, ⟨.done, [], 0⟩⟩)]⟩, ⟨[], [], 0⟩⟩
    ["glam"] (by decide)

end Infl
